import Mathlib

/-!
Verification development for the WebGPU path tracer.

The TypeScript/WGSL sources are shallowly embedded into Lean:

* vectors and bounding boxes use exact rational arithmetic (`ℚ`) in place of
  IEEE `f32`; the algorithms under study are control-flow and exact-arithmetic
  properties, so the embedding keeps every comparison and arithmetic operation
  of the source, evaluated exactly;
* transcendental functions of the shader (`sqrt`, `log`, `cos`, ...) are
  abstracted into a `RealFns` record that parameterises the shader model: no
  claim under study depends on their values;
* the WGSL `u32` PRNG is embedded on `Nat` with explicit reduction mod 2^32;
* JavaScript exceptions become `Except`, and the stateful traversal loop
  becomes an explicit step function iterated with fuel.
-/

/-! ## Rational 3-vectors and axis-aligned boxes (THREE.Vector3 / THREE.Box3) -/

structure Vec3 where
  x : ℚ
  y : ℚ
  z : ℚ
deriving DecidableEq

namespace Vec3

def add (a b : Vec3) : Vec3 := ⟨a.x + b.x, a.y + b.y, a.z + b.z⟩

def sub (a b : Vec3) : Vec3 := ⟨a.x - b.x, a.y - b.y, a.z - b.z⟩

def smul (q : ℚ) (a : Vec3) : Vec3 := ⟨q * a.x, q * a.y, q * a.z⟩

def hadamard (a b : Vec3) : Vec3 := ⟨a.x * b.x, a.y * b.y, a.z * b.z⟩

def dot (a b : Vec3) : ℚ := a.x * b.x + a.y * b.y + a.z * b.z

def cross (a b : Vec3) : Vec3 :=
  ⟨a.y * b.z - a.z * b.y, a.z * b.x - a.x * b.z, a.x * b.y - a.y * b.x⟩

def vmin (a b : Vec3) : Vec3 := ⟨min a.x b.x, min a.y b.y, min a.z b.z⟩

def vmax (a b : Vec3) : Vec3 := ⟨max a.x b.x, max a.y b.y, max a.z b.z⟩

def zero : Vec3 := ⟨0, 0, 0⟩

/-- WGSL componentwise `mix(a, b, t) = a * (1 - t) + b * t`. -/
def mix (a b : Vec3) (t : ℚ) : Vec3 := add (smul (1 - t) a) (smul t b)

end Vec3

/-- Axis-aligned box, `THREE.Box3` with both corners present (all boxes the
program builds are expanded from at least one concrete point). -/
structure Box3 where
  min : Vec3
  max : Vec3
deriving DecidableEq

namespace Box3

/-- THREE.Box3#expandByPoint. -/
def expandByPoint (b : Box3) (p : Vec3) : Box3 := ⟨Vec3.vmin b.min p, Vec3.vmax b.max p⟩

/-- Degenerate box holding a single point; the result of expanding the empty
THREE.Box3 (min = +inf, max = -inf) by its first point. -/
def pointBox (p : Vec3) : Box3 := ⟨p, p⟩

/-- THREE.Box3#getSize (componentwise max - min). -/
def size (b : Box3) : Vec3 := Vec3.sub b.max b.min

/-- THREE.Box3#getCenter ((min + max) / 2). -/
def center (b : Box3) : Vec3 := Vec3.smul (1/2) (Vec3.add b.min b.max)

/-- THREE.Box3#setFromPoints for the three corners of a triangle. -/
def fromTriangle (a b c : Vec3) : Box3 :=
  expandByPoint (expandByPoint (pointBox a) b) c

/-- Box `outer` contains box `inner` (componentwise corner inequalities). -/
def contains (outer inner : Box3) : Prop :=
  outer.min.x ≤ inner.min.x ∧ outer.min.y ≤ inner.min.y ∧ outer.min.z ≤ inner.min.z ∧
  inner.max.x ≤ outer.max.x ∧ inner.max.y ≤ outer.max.y ∧ inner.max.z ≤ outer.max.z

instance (outer inner : Box3) : Decidable (contains outer inner) := by
  unfold contains; infer_instance

/-- A box is valid when min ≤ max componentwise. -/
def IsValid (b : Box3) : Prop :=
  b.min.x ≤ b.max.x ∧ b.min.y ≤ b.max.y ∧ b.min.z ≤ b.max.z

instance (b : Box3) : Decidable (IsValid b) := by
  unfold IsValid; infer_instance

theorem contains_refl (b : Box3) : contains b b := by
  refine ⟨le_refl _, le_refl _, le_refl _, le_refl _, le_refl _, le_refl _⟩

theorem contains_trans {a b c : Box3} (h1 : contains a b) (h2 : contains b c) :
    contains a c := by
  obtain ⟨p1, p2, p3, p4, p5, p6⟩ := h1
  obtain ⟨q1, q2, q3, q4, q5, q6⟩ := h2
  exact ⟨le_trans p1 q1, le_trans p2 q2, le_trans p3 q3,
         le_trans q4 p4, le_trans q5 p5, le_trans q6 p6⟩

theorem contains_expandByPoint (b : Box3) (p : Vec3) : contains (expandByPoint b p) b := by
  refine ⟨min_le_left _ _, min_le_left _ _, min_le_left _ _,
          le_max_left _ _, le_max_left _ _, le_max_left _ _⟩

/-- A point inside a box stays inside after expanding the box by another point. -/
theorem contains_mono_expand {outer : Box3} {b : Box3} {p : Vec3}
    (hb : contains outer b)
    (hpmin : outer.min.x ≤ p.x ∧ outer.min.y ≤ p.y ∧ outer.min.z ≤ p.z)
    (hpmax : p.x ≤ outer.max.x ∧ p.y ≤ outer.max.y ∧ p.z ≤ outer.max.z) :
    contains outer (expandByPoint b p) := by
  obtain ⟨p1, p2, p3, p4, p5, p6⟩ := hb
  obtain ⟨a1, a2, a3⟩ := hpmin
  obtain ⟨c1, c2, c3⟩ := hpmax
  exact ⟨le_min p1 a1, le_min p2 a2, le_min p3 a3,
         max_le p4 c1, max_le p5 c2, max_le p6 c3⟩

theorem isValid_expandByPoint {b : Box3} (hb : IsValid b) (p : Vec3) :
    IsValid (expandByPoint b p) := by
  obtain ⟨h1, h2, h3⟩ := hb
  refine ⟨?_, ?_, ?_⟩ <;>
    · apply le_trans (min_le_left _ _)
      apply le_trans _ (le_max_left _ _)
      assumption

theorem isValid_pointBox (p : Vec3) : IsValid (pointBox p) :=
  ⟨le_refl _, le_refl _, le_refl _⟩

end Box3

/-! ## BVH builder (RaytracePass.buildBVH / buildBVHRecursive, part of
`src/passes/raytrace.ts`) -/

/-- A triangle as extracted by updateScene: world-space corner positions,
per-corner normals and a material index. -/
structure Triangle where
  aPosition : Vec3
  bPosition : Vec3
  cPosition : Vec3
  aNormal : Vec3
  bNormal : Vec3
  cNormal : Vec3
  materialIndex : Int
deriving DecidableEq

/-- In-memory BVH tree, the TS union type BVHLeafNode | BVHInternalNode. -/
inductive BVHTree where
  | leaf (bbox : Box3) (triangleIndex : Nat)
  | internal (bbox : Box3) (left right : BVHTree)
deriving DecidableEq

namespace BVHTree

def bbox : BVHTree → Box3
  | leaf b _ => b
  | internal b _ _ => b

/-- Number of nodes in the tree. -/
def count : BVHTree → Nat
  | leaf _ _ => 1
  | internal _ l r => 1 + l.count + r.count

theorem count_pos (t : BVHTree) : 0 < t.count := by
  cases t <;> simp [count]

end BVHTree

/-- Errors thrown by the builder; buildBVHRecursive throws on empty input. -/
inductive BuildError where
  | emptyInput
deriving DecidableEq

/-- Stable ascending insertion sort; the model of JavaScript
Array.prototype.sort with a numeric comparator (which is a stable ascending
sort): elements are kept before later elements that compare equal. -/
def sortedInsert {α : Type} (le : α → α → Bool) (a : α) : List α → List α
  | [] => [a]
  | b :: bs => if le a b then a :: b :: bs else b :: sortedInsert le a bs

def stableSortBy {α : Type} (le : α → α → Bool) : List α → List α
  | [] => []
  | a :: as => sortedInsert le a (stableSortBy le as)

theorem sortedInsert_perm {α : Type} (le : α → α → Bool) (a : α) (l : List α) :
    (sortedInsert le a l).Perm (a :: l) := by
  induction l with
  | nil => simp [sortedInsert]
  | cons b bs ih =>
    by_cases h : le a b
    · simp [sortedInsert, h]
    · simp only [sortedInsert, h, if_neg, Bool.false_eq_true, if_false]
      exact List.Perm.trans (List.Perm.cons b ih) (List.Perm.swap a b bs)

theorem stableSortBy_perm {α : Type} (le : α → α → Bool) (l : List α) :
    (stableSortBy le l).Perm l := by
  induction l with
  | nil => simp [stableSortBy]
  | cons a as ih =>
    exact List.Perm.trans (sortedInsert_perm le a (stableSortBy le as))
      (List.Perm.cons a ih)

theorem length_stableSortBy {α : Type} (le : α → α → Bool) (l : List α) :
    (stableSortBy le l).length = l.length :=
  List.Perm.length_eq (stableSortBy_perm le l)

theorem mem_of_mem_stableSortBy {α : Type} {le : α → α → Bool} {l : List α} {a : α}
    (h : a ∈ stableSortBy le l) : a ∈ l :=
  (List.Perm.mem_iff (stableSortBy_perm le l)).mp h

/-- Bounding box of a list of candidate nodes: a fresh THREE.Box3 expanded by
each node's bbox.min and bbox.max in order.  The empty case is unreachable in
the source (all call sites pass nonempty lists) and maps to the degenerate
zero box. -/
def computeBBoxAux (b : Box3) (ns : List BVHTree) : Box3 :=
  ns.foldl (fun acc n => (acc.expandByPoint n.bbox.min).expandByPoint n.bbox.max) b

def computeBBox : List BVHTree → Box3
  | [] => Box3.pointBox Vec3.zero
  | n :: rest => computeBBoxAux ((Box3.pointBox n.bbox.min).expandByPoint n.bbox.max) rest

/-- Surface area of an AABB: 2 * (xy + xz + yz) (getSurfaceArea in the source). -/
def getSurfaceArea (b : Box3) : ℚ :=
  let s := b.size
  2 * (s.x * s.y + s.x * s.z + s.y * s.z)

/-- Split axes. -/
inductive Axis where
  | x
  | y
  | z
deriving DecidableEq

/-- Axis selection of buildBVHRecursive:
`size.x > size.y ? (size.x > size.z ? "x" : "z") : "y"`. -/
def chooseSplitAxis (s : Vec3) : Axis :=
  if s.x > s.y then (if s.x > s.z then Axis.x else Axis.z) else Axis.y

def Vec3.comp (a : Vec3) : Axis → ℚ
  | Axis.x => a.x
  | Axis.y => a.y
  | Axis.z => a.z

/-- Center coordinate of a node's box along an axis, the sort key of the
builder. -/
def centerOn (axis : Axis) (n : BVHTree) : ℚ := Vec3.comp n.bbox.center axis

/-- SAH cost of splitting the (already sorted) candidate list before index i:
`area(leftBox) * |left| + area(rightBox) * |right|`. -/
def splitCost (ns : List BVHTree) (i : Nat) : ℚ :=
  getSurfaceArea (computeBBox (ns.take i)) * (i : ℚ) +
    getSurfaceArea (computeBBox (ns.drop i)) * ((ns.length - i : ℕ) : ℚ)

/-- Fold of the builder's min-cost loop: `minCost` starts at Infinity (`none`)
and is replaced whenever a strictly smaller cost appears, so the first index
attaining the minimum wins. -/
def minCostFold (cost : Nat → ℚ) (ks : List Nat) : Option (ℚ × Nat) :=
  ks.foldl
    (fun acc k =>
      match acc with
      | none => some (cost k, k)
      | some (c, j) => if cost k < c then some (cost k, k) else some (c, j))
    none

/-- Index chosen by the builder's split search over i = 1 .. n-1. The
`getD 0` fallback is unreachable: every caller passes a list of length ≥ 3. -/
def minSplitIndex (ns : List BVHTree) : Nat :=
  ((minCostFold (splitCost ns) (List.range' 1 (ns.length - 1))).map Prod.snd).getD 0

theorem minCostFold_go_mem (cost : Nat → ℚ) (ks : List Nat) :
    ∀ c0 k0, ∃ c k, ks.foldl
      (fun acc k => match acc with
        | none => some (cost k, k)
        | some (c, j) => if cost k < c then some (cost k, k) else some (c, j))
      (some (c0, k0)) = some (c, k) ∧ (k ∈ ks ∨ k = k0) := by
  induction ks with
  | nil =>
    intro c0 k0; exact ⟨c0, k0, by simp, Or.inr rfl⟩
  | cons a as ih =>
    intro c0 k0
    simp only [List.foldl_cons]
    by_cases hlt : cost a < c0
    · rcases ih (cost a) a with ⟨c, k, hfold, hk⟩
      refine ⟨c, k, by simpa [hlt] using hfold, ?_⟩
      rcases hk with h | h
      · exact Or.inl (List.mem_cons_of_mem _ h)
      · subst h; exact Or.inl (List.mem_cons_self _ _)
    · rcases ih c0 k0 with ⟨c, k, hfold, hk⟩
      refine ⟨c, k, by simpa [hlt] using hfold, ?_⟩
      rcases hk with h | h
      · exact Or.inl (List.mem_cons_of_mem _ h)
      · exact Or.inr h

theorem minCostFold_some_mem (cost : Nat → ℚ) (ks : List Nat) (hne : ks ≠ []) :
    ∃ c k, minCostFold cost ks = some (c, k) ∧ k ∈ ks := by
  match ks, hne with
  | a :: as, _ =>
    unfold minCostFold
    simp only [List.foldl_cons]
    rcases minCostFold_go_mem cost as (cost a) a with ⟨c, k, hfold, hk⟩
    refine ⟨c, k, hfold, ?_⟩
    rcases hk with h | h
    · exact List.mem_cons_of_mem _ h
    · subst h; exact List.mem_cons_self _ _

theorem minSplitIndex_bounds (ns : List BVHTree) (h3 : 3 ≤ ns.length) :
    1 ≤ minSplitIndex ns ∧ minSplitIndex ns ≤ ns.length - 1 := by
  have hne : List.range' 1 (ns.length - 1) ≠ [] := by
    rw [ne_eq, List.range'_eq_nil]
    omega
  rcases minCostFold_some_mem (splitCost ns) (List.range' 1 (ns.length - 1)) hne with
    ⟨c, k, hfold, hk⟩
  have hmem := List.mem_range'.mp hk
  unfold minSplitIndex
  rw [hfold]
  obtain ⟨i, hi, hki⟩ := hmem
  simp only [Option.map_some', Option.getD_some]
  omega

/-- Sort key order of the builder: ascending bounding-box center along the
chosen axis (the JS comparator `centerA - centerB`). -/
def centerLE (axis : Axis) (a b : BVHTree) : Bool :=
  decide (centerOn axis a ≤ centerOn axis b)

/-- Recursion core of buildBVHRecursive, structurally recursive on an
explicit fuel so that the kernel can evaluate it; the zero-fuel arm is
unreachable because every caller supplies at least the list length as fuel
(`buildBVHRecursiveGo_congr` below), and the wrapper `buildBVHRecursive`
passes exactly the list length. -/
def buildBVHRecursiveGo : Nat → List BVHTree → Except BuildError BVHTree
  | _, [] => Except.error BuildError.emptyInput
  | _, [n] => Except.ok n
  | _, [n1, n2] =>
    Except.ok (BVHTree.internal (computeBBox [n1, n2]) n1 n2)
  | 0, _ :: _ :: _ :: _ => Except.error BuildError.emptyInput
  | fuel + 1, n1 :: n2 :: n3 :: rest =>
    let ns := n1 :: n2 :: n3 :: rest
    let bbox := computeBBox ns
    let axis := chooseSplitAxis bbox.size
    let sorted := stableSortBy (centerLE axis) ns
    let k := minSplitIndex sorted
    match buildBVHRecursiveGo fuel (sorted.take k), buildBVHRecursiveGo fuel (sorted.drop k) with
    | Except.ok l, Except.ok r => Except.ok (BVHTree.internal bbox l r)
    | Except.error e, _ => Except.error e
    | _, Except.error e => Except.error e

/-- Shallow embedding of RaytracePass.buildBVHRecursive.

* empty input throws (`Except.error`);
* a single node is returned as is;
* two nodes become the children of a fresh internal node, no cost search;
* otherwise: bounding box of all candidates, split axis
  `size.x > size.y ? (size.x > size.z ? "x" : "z") : "y"`, stable sort by
  box center along that axis, SAH cost minimisation over every split index,
  recursion on the two halves. -/
def buildBVHRecursive (inputNodes : List BVHTree) : Except BuildError BVHTree :=
  buildBVHRecursiveGo inputNodes.length inputNodes

theorem buildBVHRecursiveGo_congr :
    ∀ (f1 : Nat), ∀ (f2 : Nat) (ns : List BVHTree), ns.length ≤ f1 → ns.length ≤ f2 →
      buildBVHRecursiveGo f1 ns = buildBVHRecursiveGo f2 ns := by
  intro f1
  induction f1 with
  | zero =>
    intro f2 ns h1 h2
    match ns with
    | [] => cases f2 <;> rfl
    | [n] => cases f2 <;> rfl
    | [n1, n2] => cases f2 <;> rfl
    | n1 :: n2 :: n3 :: rest => simp at h1
  | succ f1 ih =>
    intro f2 ns h1 h2
    match ns with
    | [] => cases f2 <;> rfl
    | [n] => cases f2 <;> rfl
    | [n1, n2] => cases f2 <;> rfl
    | n1 :: n2 :: n3 :: rest =>
      match f2 with
      | 0 => simp at h2
      | f2 + 1 =>
        simp only [buildBVHRecursiveGo]
        have hslen : (stableSortBy (centerLE (chooseSplitAxis (computeBBox
            (n1 :: n2 :: n3 :: rest)).size)) (n1 :: n2 :: n3 :: rest)).length =
            rest.length + 3 := by
          rw [length_stableSortBy]; simp
        have hkb := minSplitIndex_bounds (stableSortBy (centerLE (chooseSplitAxis (computeBBox
            (n1 :: n2 :: n3 :: rest)).size)) (n1 :: n2 :: n3 :: rest)) (by omega)
        have h1c : rest.length + 3 ≤ f1 + 1 := by simpa using h1
        have h2c : rest.length + 3 ≤ f2 + 1 := by simpa using h2
        rw [ih f2 _ (by simp only [List.length_take]; omega)
              (by simp only [List.length_take]; omega),
            ih f2 _ (by simp only [List.length_drop]; omega)
              (by simp only [List.length_drop]; omega)]

theorem buildBVHRecursiveGo_eq (fuel : Nat) (ns : List BVHTree) (h : ns.length ≤ fuel) :
    buildBVHRecursiveGo fuel ns = buildBVHRecursive ns :=
  buildBVHRecursiveGo_congr fuel ns.length ns h (le_refl _)

/-- RaytracePass.buildBVH: one leaf per triangle (bounding box from the three
corner positions), then the recursive build. -/
def buildBVH (triangles : List Triangle) : Except BuildError BVHTree :=
  let inputNodes := (List.range triangles.length).zip triangles |>.map
    (fun p => BVHTree.leaf (Box3.fromTriangle p.2.aPosition p.2.bPosition p.2.cPosition) p.1)
  buildBVHRecursive inputNodes

/-- Flat GPU node (BVHNodeFlat / the WGSL BVHNode struct). `left`, `right`
and `triangleIndex` are -1 when absent, exactly as uploaded to the GPU. -/
structure BVHNodeFlat where
  min : Vec3
  max : Vec3
  isLeaf : Int
  left : Int
  right : Int
  triangleIndex : Int
deriving DecidableEq

/-- Sum of node counts of a queue of trees; termination measure of the
breadth-first flatten. -/
def queueCount (q : List BVHTree) : Nat := (q.map BVHTree.count).sum

/-- Breadth-first flatten, the two phases of RaytracePass.flattenBVH fused:
the source first collects nodes in BFS order, then replaces each child
reference by its position (indexOf on object identity).  In BFS order the
children of successive internal nodes receive consecutive indices starting
after the current queue, which `nextIndex` tracks explicitly; `nextIndex` is
always the index the next enqueued node will occupy. -/
def bfsFlatten (queue : List BVHTree) (nextIndex : Nat) : List BVHNodeFlat :=
  match queue with
  | [] => []
  | BVHTree.leaf b t :: rest =>
    ⟨b.min, b.max, 1, -1, -1, (t : Int)⟩ :: bfsFlatten rest nextIndex
  | BVHTree.internal b l r :: rest =>
    ⟨b.min, b.max, 0, (nextIndex : Int), (nextIndex + 1 : Nat), -1⟩ ::
      bfsFlatten (rest ++ [l, r]) (nextIndex + 2)
termination_by queueCount queue
decreasing_by
  · simp only [queueCount, List.map_cons, List.sum_cons]
    have := BVHTree.count_pos (BVHTree.leaf b t)
    omega
  · simp only [queueCount, List.map_cons, List.sum_cons, List.map_append, List.sum_append,
      BVHTree.count]
    simp [BVHTree.count]
    omega

/-- RaytracePass.flattenBVH: breadth-first array of nodes, root at index 0. -/
def flattenBVH (rootNode : BVHTree) : List BVHNodeFlat := bfsFlatten [rootNode] 1

/-! ## Builder invariants -/

/-- A point lies inside a box. -/
def Box3.pointIn (b : Box3) (p : Vec3) : Prop :=
  b.min.x ≤ p.x ∧ b.min.y ≤ p.y ∧ b.min.z ≤ p.z ∧
  p.x ≤ b.max.x ∧ p.y ≤ b.max.y ∧ p.z ≤ b.max.z

theorem Box3.isValid_expandByPoint_any (b : Box3) (p : Vec3) :
    Box3.IsValid (Box3.expandByPoint b p) := by
  refine ⟨?_, ?_, ?_⟩ <;> exact le_trans (min_le_right _ _) (le_max_right _ _)

theorem Box3.contains_of_pointIn_pointIn {B : Box3} {p q : Vec3}
    (hp : Box3.pointIn B p) (hq : Box3.pointIn B q) :
    Box3.contains B (Box3.expandByPoint (Box3.pointBox p) q) := by
  obtain ⟨p1, p2, p3, p4, p5, p6⟩ := hp
  obtain ⟨q1, q2, q3, q4, q5, q6⟩ := hq
  exact ⟨le_min p1 q1, le_min p2 q2, le_min p3 q3,
         max_le p4 q4, max_le p5 q5, max_le p6 q6⟩

theorem Box3.pointIn_min_of_contains {B c : Box3} (h : Box3.contains B c)
    (hc : Box3.IsValid c) : Box3.pointIn B c.min := by
  obtain ⟨h1, h2, h3, h4, h5, h6⟩ := h
  obtain ⟨v1, v2, v3⟩ := hc
  exact ⟨h1, h2, h3, le_trans v1 h4, le_trans v2 h5, le_trans v3 h6⟩

theorem Box3.pointIn_max_of_contains {B c : Box3} (h : Box3.contains B c)
    (hc : Box3.IsValid c) : Box3.pointIn B c.max := by
  obtain ⟨h1, h2, h3, h4, h5, h6⟩ := h
  obtain ⟨v1, v2, v3⟩ := hc
  exact ⟨le_trans h1 v1, le_trans h2 v2, le_trans h3 v3, h4, h5, h6⟩

theorem computeBBoxAux_contains_init (ns : List BVHTree) :
    ∀ b : Box3, Box3.contains (computeBBoxAux b ns) b := by
  induction ns with
  | nil => intro b; exact Box3.contains_refl b
  | cons n rest ih =>
    intro b
    have h1 : Box3.contains ((b.expandByPoint n.bbox.min).expandByPoint n.bbox.max) b :=
      Box3.contains_trans (Box3.contains_expandByPoint _ _) (Box3.contains_expandByPoint _ _)
    exact Box3.contains_trans (ih _) h1

theorem computeBBoxAux_contains_mem {ns : List BVHTree} {n : BVHTree} (hmem : n ∈ ns) :
    ∀ b : Box3, Box3.contains (computeBBoxAux b ns) n.bbox := by
  induction ns with
  | nil => cases hmem
  | cons m rest ih =>
    intro b
    rcases List.mem_cons.mp hmem with h | h
    · subst h
      show Box3.contains (computeBBoxAux ((b.expandByPoint n.bbox.min).expandByPoint n.bbox.max) rest) n.bbox
      refine Box3.contains_trans (computeBBoxAux_contains_init rest _) ?_
      refine ⟨?_, ?_, ?_, le_max_right _ _, le_max_right _ _, le_max_right _ _⟩ <;>
        exact le_trans (min_le_left _ _) (min_le_right _ _)
    · exact ih h _

theorem computeBBox_contains_mem {ns : List BVHTree} {n : BVHTree} (hmem : n ∈ ns) :
    Box3.contains (computeBBox ns) n.bbox := by
  match ns, hmem with
  | m :: rest, hmem =>
    rcases List.mem_cons.mp hmem with h | h
    · subst h
      show Box3.contains (computeBBoxAux _ rest) _
      refine Box3.contains_trans (computeBBoxAux_contains_init rest _) ?_
      exact ⟨min_le_left _ _, min_le_left _ _, min_le_left _ _,
             le_max_right _ _, le_max_right _ _, le_max_right _ _⟩
    · exact computeBBoxAux_contains_mem h _

theorem isValid_computeBBoxAux {b : Box3} (hb : Box3.IsValid b) (ns : List BVHTree) :
    Box3.IsValid (computeBBoxAux b ns) := by
  induction ns generalizing b with
  | nil => exact hb
  | cons n rest ih => exact ih (Box3.isValid_expandByPoint_any _ _)

theorem isValid_computeBBox {ns : List BVHTree} (h : ns ≠ []) :
    Box3.IsValid (computeBBox ns) := by
  match ns, h with
  | n :: rest, _ => exact isValid_computeBBoxAux (Box3.isValid_expandByPoint_any _ _) rest

theorem contains_computeBBoxAux_of {B b : Box3} {ns : List BVHTree}
    (hb : Box3.contains B b)
    (hmem : ∀ n ∈ ns, Box3.pointIn B n.bbox.min ∧ Box3.pointIn B n.bbox.max) :
    Box3.contains B (computeBBoxAux b ns) := by
  induction ns generalizing b with
  | nil => exact hb
  | cons n rest ih =>
    have hn := hmem n (List.mem_cons_self _ _)
    refine ih ?_ (fun m hm => hmem m (List.mem_cons_of_mem _ hm))
    exact Box3.contains_mono_expand
      (Box3.contains_mono_expand hb
        ⟨hn.1.1, hn.1.2.1, hn.1.2.2.1⟩ ⟨hn.1.2.2.2.1, hn.1.2.2.2.2.1, hn.1.2.2.2.2.2⟩)
      ⟨hn.2.1, hn.2.2.1, hn.2.2.2.1⟩ ⟨hn.2.2.2.2.1, hn.2.2.2.2.2.1, hn.2.2.2.2.2.2⟩

/-- The bounding box of a sub-collection of candidates is contained in any box
containing every member box (members' boxes assumed valid). -/
theorem contains_computeBBox_of {B : Box3} {ns : List BVHTree} (hne : ns ≠ [])
    (hmem : ∀ n ∈ ns, Box3.contains B n.bbox ∧ Box3.IsValid n.bbox) :
    Box3.contains B (computeBBox ns) := by
  match ns, hne with
  | n :: rest, _ =>
    have hn := hmem n (List.mem_cons_self _ _)
    have hpts : ∀ m ∈ (n :: rest), Box3.pointIn B m.bbox.min ∧ Box3.pointIn B m.bbox.max := by
      intro m hm
      have := hmem m hm
      exact ⟨Box3.pointIn_min_of_contains this.1 this.2, Box3.pointIn_max_of_contains this.1 this.2⟩
    have h0 : Box3.contains B ((Box3.pointBox n.bbox.min).expandByPoint n.bbox.max) :=
      Box3.contains_of_pointIn_pointIn (hpts n (List.mem_cons_self _ _)).1
        (hpts n (List.mem_cons_self _ _)).2
    exact contains_computeBBoxAux_of h0 (fun m hm => hpts m (List.mem_cons_of_mem _ hm))

/-- Structural invariant of a built tree: all boxes are valid and every
internal node's box contains both children's boxes. -/
def TreeInv : BVHTree → Prop
  | BVHTree.leaf b _ => Box3.IsValid b
  | BVHTree.internal b l r =>
      Box3.IsValid b ∧ Box3.contains b l.bbox ∧ Box3.contains b r.bbox ∧ TreeInv l ∧ TreeInv r

theorem TreeInv.isValid_bbox {t : BVHTree} (h : TreeInv t) : Box3.IsValid t.bbox := by
  cases t with
  | leaf b i => exact h
  | internal b l r => exact h.1

theorem buildBVHRecursiveGo_inv :
    ∀ (fuel : Nat) (ns : List BVHTree), ns.length ≤ fuel →
      (∀ n ∈ ns, TreeInv n) → ∀ t, buildBVHRecursiveGo fuel ns = Except.ok t →
      TreeInv t ∧ Box3.contains (computeBBox ns) t.bbox := by
  intro fuel
  induction fuel with
  | zero =>
    intro ns hlen _ t ht
    match ns, hlen with
    | [], _ => simp [buildBVHRecursiveGo] at ht
  | succ fuel ih =>
    intro ns hlen hinv t ht
    match ns with
    | [] => simp [buildBVHRecursiveGo] at ht
    | [n] =>
      simp only [buildBVHRecursiveGo, Except.ok.injEq] at ht
      subst ht
      exact ⟨hinv _ (List.mem_cons_self _ _),
             computeBBox_contains_mem (List.mem_cons_self _ _)⟩
    | [n1, n2] =>
      simp only [buildBVHRecursiveGo, Except.ok.injEq] at ht
      subst ht
      refine ⟨⟨isValid_computeBBox (by simp), ?_, ?_, ?_, ?_⟩, Box3.contains_refl _⟩
      · exact computeBBox_contains_mem (by simp)
      · exact computeBBox_contains_mem (by simp)
      · exact hinv n1 (by simp)
      · exact hinv n2 (by simp)
    | n1 :: n2 :: n3 :: rest =>
      rw [buildBVHRecursiveGo] at ht
      set ns := n1 :: n2 :: n3 :: rest with hns
      set axis := chooseSplitAxis (computeBBox ns).size with haxis
      set sorted := stableSortBy (centerLE axis) ns with hsorted
      set k := minSplitIndex sorted with hk
      have hslen : sorted.length = ns.length := length_stableSortBy _ _
      have hns3 : 3 ≤ ns.length := by rw [hns]; simp
      have hlen2 : ns.length ≤ fuel + 1 := hlen
      have hkb : 1 ≤ k ∧ k ≤ sorted.length - 1 := by
        rw [hk]; exact minSplitIndex_bounds sorted (by omega)
      have hsortedmem : ∀ m ∈ sorted, m ∈ ns := fun m hm => mem_of_mem_stableSortBy hm
      have htake_inv : ∀ m ∈ sorted.take k, TreeInv m := by
        intro m hm; exact hinv m (hsortedmem m (List.mem_of_mem_take hm))
      have hdrop_inv : ∀ m ∈ sorted.drop k, TreeInv m := by
        intro m hm; exact hinv m (hsortedmem m (List.mem_of_mem_drop hm))
      have htake_len : (sorted.take k).length ≤ fuel := by
        simp only [List.length_take]
        omega
      have hdrop_len : (sorted.drop k).length ≤ fuel := by
        simp only [List.length_drop]
        omega
      rcases hsplit : (buildBVHRecursiveGo fuel (sorted.take k),
          buildBVHRecursiveGo fuel (sorted.drop k))
        with ⟨eL | l, eR | r⟩ <;>
        rw [Prod.mk.injEq] at hsplit <;>
        rw [hsplit.1, hsplit.2] at ht
      · cases ht
      · cases ht
      · cases ht
      have hL := hsplit.1
      have hR := hsplit.2
      injection ht with ht
      subst ht
      obtain ⟨hlinv, hlbox⟩ := ih (sorted.take k) htake_len htake_inv l hL
      obtain ⟨hrinv, hrbox⟩ := ih (sorted.drop k) hdrop_len hdrop_inv r hR
      have htake_ne : sorted.take k ≠ [] := by
        intro hcon
        have := congrArg List.length hcon
        simp only [List.length_take, List.length_nil] at this
        omega
      have hdrop_ne : sorted.drop k ≠ [] := by
        intro hcon
        have := congrArg List.length hcon
        simp only [List.length_drop, List.length_nil] at this
        omega
      have hcontains_take : Box3.contains (computeBBox ns) (computeBBox (sorted.take k)) := by
        refine contains_computeBBox_of htake_ne (fun m hm => ?_)
        have hmns := hsortedmem m (List.mem_of_mem_take hm)
        exact ⟨computeBBox_contains_mem hmns, (hinv m hmns).isValid_bbox⟩
      have hcontains_drop : Box3.contains (computeBBox ns) (computeBBox (sorted.drop k)) := by
        refine contains_computeBBox_of hdrop_ne (fun m hm => ?_)
        have hmns := hsortedmem m (List.mem_of_mem_drop hm)
        exact ⟨computeBBox_contains_mem hmns, (hinv m hmns).isValid_bbox⟩
      refine ⟨⟨isValid_computeBBox (by rw [hns]; simp), ?_, ?_, hlinv, hrinv⟩,
              Box3.contains_refl _⟩
      · exact Box3.contains_trans hcontains_take hlbox
      · exact Box3.contains_trans hcontains_drop hrbox

theorem buildBVHRecursive_inv (ns : List BVHTree) (hinv : ∀ n ∈ ns, TreeInv n)
    (t : BVHTree) (h : buildBVHRecursive ns = Except.ok t) :
    TreeInv t ∧ Box3.contains (computeBBox ns) t.bbox :=
  buildBVHRecursiveGo_inv ns.length ns (le_refl _) hinv t h

/-! ## Flattened-array invariants -/

/-- Default flat node used by total list indexing (never hits under the
in-bounds guards of the statements below). -/
def dummyFlat : BVHNodeFlat := ⟨Vec3.zero, Vec3.zero, -1, -1, -1, -1⟩

def BVHNodeFlat.box (f : BVHNodeFlat) : Box3 := ⟨f.min, f.max⟩

/-- All child indices referenced by the flat array, in order of appearance. -/
def childRefs : List BVHNodeFlat → List Nat
  | [] => []
  | f :: fs => (if f.isLeaf = 0 then [f.left.toNat, f.right.toNat] else []) ++ childRefs fs

/-- Well-formedness of one entry of a flat BVH array (`offset` is the global
index of the array's first entry): a leaf stores exactly one triangle index
and no children; an internal node stores no triangle, two child indices
strictly beyond its own position and in bounds, and a box containing both
children's boxes. -/
def NodeOK (fs : List BVHNodeFlat) (offset k : Nat) : Prop :=
  let f := fs.getD k dummyFlat
  (f.isLeaf = 0 ∨ f.isLeaf = 1) ∧
  (f.isLeaf = 1 → f.left = -1 ∧ f.right = -1 ∧ ∃ t : Nat, f.triangleIndex = (t : Int)) ∧
  (f.isLeaf = 0 → f.triangleIndex = -1 ∧
    ∃ li : Nat, f.left = (li : Int) ∧ f.right = ((li + 1 : Nat) : Int) ∧
      offset + k < li ∧ li + 1 - offset < fs.length ∧
      Box3.contains f.box (fs.getD (li - offset) dummyFlat).box ∧
      Box3.contains f.box (fs.getD (li + 1 - offset) dummyFlat).box)

theorem queueCount_ge_length (q : List BVHTree) : q.length ≤ queueCount q := by
  induction q with
  | nil => simp [queueCount]
  | cons n rest ih =>
    have := BVHTree.count_pos n
    simp only [queueCount, List.map_cons, List.sum_cons, List.length_cons]
    simp only [queueCount] at ih
    omega

theorem bfsFlatten_spec :
    ∀ (M : Nat) (queue : List BVHTree) (i0 : Nat), queueCount queue ≤ M →
      (∀ n ∈ queue, TreeInv n) → queue.length ≤ i0 →
      (bfsFlatten queue i0).length = queueCount queue ∧
      childRefs (bfsFlatten queue i0) =
        List.range' i0 ((bfsFlatten queue i0).length - queue.length) ∧
      (∀ j, j < queue.length →
        ((bfsFlatten queue i0).getD j dummyFlat).min = (queue.getD j (BVHTree.leaf ⟨Vec3.zero, Vec3.zero⟩ 0)).bbox.min ∧
        ((bfsFlatten queue i0).getD j dummyFlat).max = (queue.getD j (BVHTree.leaf ⟨Vec3.zero, Vec3.zero⟩ 0)).bbox.max) ∧
      (∀ k, k < (bfsFlatten queue i0).length → NodeOK (bfsFlatten queue i0) (i0 - queue.length) k) := by
  intro M
  induction M with
  | zero =>
    intro queue i0 hM hinv hlen
    match queue with
    | [] =>
      refine ⟨by simp [bfsFlatten, queueCount], by simp [bfsFlatten, childRefs], ?_, ?_⟩
      · intro j hj; simp at hj
      · intro k hk; simp [bfsFlatten] at hk
    | n :: rest =>
      exfalso
      have h1 := BVHTree.count_pos n
      simp only [queueCount, List.map_cons, List.sum_cons] at hM
      omega
  | succ M ih =>
    intro queue i0 hM hinv hlen
    match queue with
    | [] =>
      refine ⟨by simp [bfsFlatten, queueCount], by simp [bfsFlatten, childRefs], ?_, ?_⟩
      · intro j hj; simp at hj
      · intro k hk; simp [bfsFlatten] at hk
    | BVHTree.leaf b t :: rest =>
      have hM' : queueCount rest ≤ M := by
        simp only [queueCount, List.map_cons, List.sum_cons, BVHTree.count] at hM ⊢
        omega
      have hlen' : rest.length ≤ i0 := by
        simp only [List.length_cons] at hlen; omega
      obtain ⟨ihlen, ihrefs, ihpre, ihok⟩ :=
        ih rest i0 hM' (fun n hn => hinv n (List.mem_cons_of_mem _ hn)) hlen'
      have hfs : bfsFlatten (BVHTree.leaf b t :: rest) i0 =
          ⟨b.min, b.max, 1, -1, -1, (t : Int)⟩ :: bfsFlatten rest i0 := by
        rw [bfsFlatten]
      have hrl : rest.length ≤ (bfsFlatten rest i0).length := by
        rw [ihlen]; exact queueCount_ge_length rest
      refine ⟨?_, ?_, ?_, ?_⟩
      · rw [hfs]
        simp only [List.length_cons, ihlen, queueCount, List.map_cons, List.sum_cons,
          BVHTree.count]
        omega
      · rw [hfs]
        show (if (1 : Int) = 0 then _ else []) ++ childRefs (bfsFlatten rest i0) = _
        rw [if_neg (by decide)]
        rw [List.nil_append, ihrefs]
        congr 1
        simp only [List.length_cons]
        omega
      · intro j hj
        rw [hfs]
        match j with
        | 0 => simp [BVHTree.bbox]
        | j + 1 =>
          simp only [List.getD_cons_succ]
          exact ihpre j (by simp only [List.length_cons] at hj; omega)
      · intro k hk
        rw [hfs]
        match k with
        | 0 =>
          unfold NodeOK
          refine ⟨Or.inr rfl, fun _ => ⟨rfl, rfl, t, rfl⟩, ?_⟩
          intro hcon
          have hcon2 : (1 : Int) = 0 := hcon
          exact absurd hcon2 (by decide)
        | k + 1 =>
          have hok := ihok k (by rw [hfs] at hk; simp only [List.length_cons] at hk; omega)
          unfold NodeOK at hok ⊢
          simp only [List.getD_cons_succ, List.length_cons]
          obtain ⟨hok0, hok1, hok2⟩ := hok
          have hlc : (BVHTree.leaf b t :: rest).length = rest.length + 1 := by simp
          refine ⟨hok0, hok1, fun h0 => ?_⟩
          obtain ⟨htri, li, hli, hri, hgt, hbound, hcl, hcr⟩ := hok2 h0
          refine ⟨htri, li, hli, hri, ?_, ?_, ?_, ?_⟩
          · omega
          · omega
          · have hsh : li - (i0 - (rest.length + 1)) = (li - (i0 - rest.length)) + 1 := by omega
            rw [hsh, List.getD_cons_succ]
            exact hcl
          · have hsh : li + 1 - (i0 - (rest.length + 1)) = (li + 1 - (i0 - rest.length)) + 1 := by
              omega
            rw [hsh, List.getD_cons_succ]
            exact hcr
    | BVHTree.internal b l r :: rest =>
      have hM' : queueCount (rest ++ [l, r]) ≤ M := by
        simp only [queueCount, List.map_cons, List.sum_cons, BVHTree.count, List.map_append,
          List.sum_append, List.map_nil, List.sum_nil] at hM ⊢
        omega
      have hinvh := hinv _ (List.mem_cons_self _ _)
      obtain ⟨hvb, hcl0, hcr0, hinvl, hinvr⟩ := hinvh
      have hinv' : ∀ n ∈ rest ++ [l, r], TreeInv n := by
        intro n hn
        rcases List.mem_append.mp hn with h | h
        · exact hinv n (List.mem_cons_of_mem _ h)
        · rcases List.mem_cons.mp h with h | h
          · subst h; exact hinvl
          · rcases List.mem_cons.mp h with h | h
            · subst h; exact hinvr
            · cases h
      have hlen' : (rest ++ [l, r]).length ≤ i0 + 2 := by
        simp only [List.length_append, List.length_cons, List.length_nil] at *
        omega
      obtain ⟨ihlen, ihrefs, ihpre, ihok⟩ := ih (rest ++ [l, r]) (i0 + 2) hM' hinv' hlen'
      have hfs : bfsFlatten (BVHTree.internal b l r :: rest) i0 =
          ⟨b.min, b.max, 0, (i0 : Int), ((i0 + 1 : Nat) : Int), -1⟩ ::
            bfsFlatten (rest ++ [l, r]) (i0 + 2) := by
        rw [bfsFlatten]
      have hql : (rest ++ [l, r]).length ≤ (bfsFlatten (rest ++ [l, r]) (i0 + 2)).length := by
        rw [ihlen]; exact queueCount_ge_length _
      have hqlen : (rest ++ [l, r]).length = rest.length + 2 := by
        simp
      have hlenc : (BVHTree.internal b l r :: rest).length = rest.length + 1 := by simp
      have hcountl := BVHTree.count_pos l
      have hcountr := BVHTree.count_pos r
      have hpre_l := ihpre rest.length (by omega)
      have hpre_r := ihpre (rest.length + 1) (by omega)
      have hget_l : (rest ++ [l, r]).getD rest.length (BVHTree.leaf ⟨Vec3.zero, Vec3.zero⟩ 0) = l := by
        rw [List.getD_append_right _ _ _ _ (le_refl _)]
        simp
      have hget_r : (rest ++ [l, r]).getD (rest.length + 1) (BVHTree.leaf ⟨Vec3.zero, Vec3.zero⟩ 0) = r := by
        rw [List.getD_append_right _ _ _ _ (by omega)]
        simp
      rw [hget_l] at hpre_l
      rw [hget_r] at hpre_r
      refine ⟨?_, ?_, ?_, ?_⟩
      · rw [hfs]
        simp only [List.length_cons, ihlen, queueCount, List.map_cons, List.sum_cons,
          BVHTree.count, List.map_append, List.sum_append, List.map_nil, List.sum_nil]
        omega
      · rw [hfs]
        show (if (0 : Int) = 0 then [((i0 : Int)).toNat, (((i0 + 1 : Nat) : Int)).toNat] else []) ++ _ = _
        rw [if_pos rfl]
        rw [ihrefs]
        have h1 : ((i0 : Int)).toNat = i0 := by simp
        have h2 : (((i0 + 1 : Nat) : Int)).toNat = i0 + 1 := by simp
        rw [h1, h2]
        have hm : (⟨b.min, b.max, 0, (i0 : Int), ((i0 + 1 : Nat) : Int), -1⟩ ::
            bfsFlatten (rest ++ [l, r]) (i0 + 2)).length - (BVHTree.internal b l r :: rest).length
            = ((bfsFlatten (rest ++ [l, r]) (i0 + 2)).length - (rest ++ [l, r]).length) + 2 := by
          simp only [List.length_cons, List.length_append, List.length_nil] at *
          omega
        rw [hm]
        rfl
      · intro j hj
        rw [hfs]
        match j with
        | 0 => simp [BVHTree.bbox]
        | j + 1 =>
          simp only [List.getD_cons_succ]
          have hj' : j < rest.length := by simp only [List.length_cons] at hj; omega
          have := ihpre j (by simp only [List.length_append, List.length_cons, List.length_nil]; omega)
          rwa [List.getD_append _ _ _ _ hj'] at this
      · intro k hk
        rw [hfs]
        match k with
        | 0 =>
          unfold NodeOK
          refine ⟨Or.inl rfl, ?_, ?_⟩
          · intro hcon
            have hcon2 : (0 : Int) = 1 := hcon
            exact absurd hcon2 (by decide)
          intro _
          refine ⟨rfl, i0, rfl, rfl, ?_, ?_, ?_, ?_⟩
          · simp only [List.length_cons]; omega
          · simp only [List.length_cons]
            have : i0 + 1 - (i0 - (rest.length + 1)) ≤ rest.length + 2 := by omega
            omega
          · have hidx : i0 - (i0 - (BVHTree.internal b l r :: rest).length) = rest.length + 1 := by
              simp only [List.length_cons]; omega
            simp only [List.length_cons] at hidx ⊢
            rw [hidx, List.getD_cons_succ]
            show Box3.contains (Box3.mk b.min b.max) _
            rw [BVHNodeFlat.box, hpre_l.1, hpre_l.2]
            exact hcl0
          · have hidx : i0 + 1 - (i0 - (BVHTree.internal b l r :: rest).length) = rest.length + 2 := by
              simp only [List.length_cons]; omega
            simp only [List.length_cons] at hidx ⊢
            rw [hidx, List.getD_cons_succ]
            show Box3.contains (Box3.mk b.min b.max) _
            rw [BVHNodeFlat.box, hpre_r.1, hpre_r.2]
            exact hcr0
        | k + 1 =>
          have hok := ihok k (by
            rw [hfs] at hk
            simp only [List.length_cons] at hk
            omega)
          unfold NodeOK at hok ⊢
          simp only [List.getD_cons_succ, List.length_cons]
          obtain ⟨hok0, hok1, hok2⟩ := hok
          refine ⟨hok0, hok1, fun h0 => ?_⟩
          obtain ⟨htri, li, hli, hri, hgt, hbound, hcl, hcr⟩ := hok2 h0
          have hoffs : i0 + 2 - (rest ++ [l, r]).length = i0 - rest.length := by
            simp only [List.length_append, List.length_cons, List.length_nil]
            omega
          rw [hoffs] at hgt hbound hcl hcr
          refine ⟨htri, li, hli, hri, by omega, ?_, ?_, ?_⟩
          · omega
          · have : li - (i0 - (rest.length + 1)) = (li - (i0 - rest.length)) + 1 := by omega
            rw [this, List.getD_cons_succ]
            exact hcl
          · have : li + 1 - (i0 - (rest.length + 1)) = (li + 1 - (i0 - rest.length)) + 1 := by
              omega
            rw [this, List.getD_cons_succ]
            exact hcr

/-- Validity of a flattened BVH array: nonempty; the child references, read
off in order, are exactly the indices 1 .. n-1 (each referenced exactly once,
index 0 never: node 0 is the unique root); and every entry is well-formed in
the sense of `NodeOK` (leaves carry one triangle index and left = right = -1,
internal nodes carry triangleIndex = -1 and a box containing both children's
boxes). -/
def ValidFlatBVH (fs : List BVHNodeFlat) : Prop :=
  fs ≠ [] ∧
  childRefs fs = List.range' 1 (fs.length - 1) ∧
  ∀ k, k < fs.length → NodeOK fs 0 k

theorem flattenBVH_valid {root : BVHTree} (h : TreeInv root) :
    ValidFlatBVH (flattenBVH root) := by
  have hq : queueCount [root] = root.count := by simp [queueCount]
  obtain ⟨hlen, hrefs, _, hok⟩ := bfsFlatten_spec root.count [root] 1
    (by rw [hq]) (by intro n hn; rcases List.mem_singleton.mp hn with h1; subst h1; exact h)
    (by simp)
  have hcount := BVHTree.count_pos root
  refine ⟨?_, ?_, ?_⟩
  · intro hcon
    rw [show flattenBVH root = bfsFlatten [root] 1 from rfl] at hcon
    rw [hcon] at hlen
    simp only [List.length_nil] at hlen
    omega
  · show childRefs (bfsFlatten [root] 1) = _
    rw [hrefs]
    rfl
  · intro k hk
    have := hok k hk
    simpa using this

theorem buildBVH_ok_inv {ts : List Triangle} {t : BVHTree}
    (h : buildBVH ts = Except.ok t) : TreeInv t := by
  unfold buildBVH at h
  have hinv : ∀ n ∈ (List.range ts.length).zip ts |>.map
      (fun p => BVHTree.leaf (Box3.fromTriangle p.2.aPosition p.2.bPosition p.2.cPosition) p.1),
      TreeInv n := by
    intro n hn
    rcases List.mem_map.mp hn with ⟨p, _, hp⟩
    subst hp
    show Box3.IsValid (Box3.fromTriangle _ _ _)
    exact Box3.isValid_expandByPoint_any _ _
  exact (buildBVHRecursive_inv _ hinv t h).1

/-! ## WGSL raytrace shader (src/passes/shaders/raytrace.wgsl, latest
generation with environment-map lighting) -/

/-- Transcendental functions used by the shader.  The claims under study
depend only on the control flow and algebraic structure around these calls,
so they are kept abstract; all other arithmetic is exact. -/
structure RealFns where
  sqrt : ℚ → ℚ
  log : ℚ → ℚ
  cos : ℚ → ℚ
  sin : ℚ → ℚ
  tan : ℚ → ℚ
  asin : ℚ → ℚ
  atan2 : ℚ → ℚ → ℚ

/-- Concrete instantiation used to evaluate the model on witness inputs
(claims never depend on the values of the transcendental functions). -/
def zeroFns : RealFns := ⟨fun _ => 0, fun _ => 0, fun _ => 0, fun _ => 0,
  fun _ => 0, fun _ => 0, fun _ _ => 0⟩

namespace Shader

def SEED : Nat := 123456789
def TWOPI : ℚ := 6.28318530718
def INVPI : ℚ := 0.31830988618
def INVTWOPI : ℚ := 0.15915494309
def INF : ℚ := 10 ^ 20
def EPSILON : ℚ := 1 / 1000000
def MAX_STACK_SIZE : Nat := 64
def U32MOD : Nat := 4294967296

structure Camera where
  position : Vec3
  direction : Vec3
  fov : ℚ
  focalDistance : ℚ
  aperture : ℚ
deriving DecidableEq

structure Ray where
  origin : Vec3
  direction : Vec3
deriving DecidableEq

structure Hit where
  hit : Bool
  position : Vec3
  normal : Vec3
  t : ℚ
  materialIndex : Int
deriving DecidableEq

structure Material where
  color : Vec3
  specularColor : Vec3
  roughness : ℚ
  metalness : ℚ
  emissionColor : Vec3
  emissionStrength : ℚ
deriving DecidableEq

/-- Uniforms of the raytrace shader.  `resolution` is held as whole pixel
counts (the program always writes integral pixel sizes into the `vec2f`). -/
structure Uniforms where
  resolution : Nat × Nat
  aspect : ℚ
  frame : Nat
  maxBounces : Int
  samplesPerFrame : Int
  camera : Camera
  envMapIntensity : ℚ
  envMapRotation : ℚ

/-- The read-only storage buffers and textures bound to the shader.  The
environment texture is abstracted to a uv → rgb lookup. -/
structure GPUScene where
  triangleBuffer : List Triangle
  materialBuffer : List Material
  bvhBuffer : List BVHNodeFlat
  envMap : ℚ → ℚ → Vec3

def dummyTriangle : Triangle :=
  ⟨Vec3.zero, Vec3.zero, Vec3.zero, Vec3.zero, Vec3.zero, Vec3.zero, 0⟩

def defaultMaterial : Material := ⟨Vec3.zero, Vec3.zero, 0, 0, Vec3.zero, 0⟩

/-- WGSL length. -/
def vlength (F : RealFns) (v : Vec3) : ℚ := F.sqrt (Vec3.dot v v)

/-- WGSL normalize (v / length(v)). -/
def normalizeV (F : RealFns) (v : Vec3) : Vec3 := Vec3.smul (1 / vlength F v) v

/-- WGSL reflect(e1, e2) = e1 - 2 * dot(e2, e1) * e2. -/
def reflect (e1 e2 : Vec3) : Vec3 :=
  Vec3.sub e1 (Vec3.smul (2 * Vec3.dot e2 e1) e2)

/-- WGSL sign. -/
def signQ (q : ℚ) : ℚ := if 0 < q then 1 else if q < 0 then -1 else 0

def noHit : Hit := ⟨false, Vec3.zero, Vec3.zero, INF, -1⟩

/-- Moller-Trumbore ray/triangle intersection (rayTriangleIntersect). -/
def rayTriangleIntersect (F : RealFns) (ray : Ray) (triangle : Triangle) : Hit :=
  let hit0 : Hit := ⟨false, Vec3.zero, Vec3.zero, INF, triangle.materialIndex⟩
  let edge1 := Vec3.sub triangle.bPosition triangle.aPosition
  let edge2 := Vec3.sub triangle.cPosition triangle.aPosition
  let h := Vec3.cross ray.direction edge2
  let a := Vec3.dot edge1 h
  if -EPSILON < a ∧ a < EPSILON then hit0
  else
    let f := 1 / a
    let s := Vec3.sub ray.origin triangle.aPosition
    let u := f * Vec3.dot s h
    if u < 0 ∨ u > 1 then hit0
    else
      let q := Vec3.cross s edge1
      let v := f * Vec3.dot ray.direction q
      if v < 0 ∨ u + v > 1 then hit0
      else
        let w := 1 - u - v
        let t := f * Vec3.dot edge2 q
        if t > EPSILON then
          ⟨true,
           Vec3.add ray.origin (Vec3.smul t ray.direction),
           normalizeV F (Vec3.add (Vec3.add (Vec3.smul w triangle.aNormal)
             (Vec3.smul u triangle.bNormal)) (Vec3.smul v triangle.cNormal)),
           t, triangle.materialIndex⟩
        else hit0

def slabAxes : List Axis := [Axis.x, Axis.y, Axis.z]

/-- Per-axis loop of rayAABBIntersect; `none` models the early
`return false` paths. -/
def rayAABBLoop (ray : Ray) (aabbMin aabbMax : Vec3) :
    List Axis → ℚ → ℚ → Option (ℚ × ℚ)
  | [], tmin, tmax => some (tmin, tmax)
  | i :: restAxes, tmin, tmax =>
    let dir := Vec3.comp ray.direction i
    let orig := Vec3.comp ray.origin i
    let minVal := Vec3.comp aabbMin i
    let maxVal := Vec3.comp aabbMax i
    if |dir| < EPSILON then
      if orig < minVal ∨ orig > maxVal then none
      else rayAABBLoop ray aabbMin aabbMax restAxes tmin tmax
    else
      let t1 := (minVal - orig) / dir
      let t2 := (maxVal - orig) / dir
      let tNear := min t1 t2
      let tFar := max t1 t2
      let tmin2 := max tmin tNear
      let tmax2 := min tmax tFar
      if tmin2 > tmax2 then none
      else rayAABBLoop ray aabbMin aabbMax restAxes tmin2 tmax2

/-- Slab test rayAABBIntersect: axes with near-zero direction component are
special-cased (reject when the origin is outside the slab, skip otherwise);
the other axes accumulate the [tmin, tmax] interval starting from the
sentinel values -INF, INF, with the source's early `return false` when the
interval empties; final result `tmax >= max(0.0, tmin)`. -/
def rayAABBIntersect (ray : Ray) (aabbMin aabbMax : Vec3) : Bool :=
  match rayAABBLoop ray aabbMin aabbMax slabAxes (-INF) INF with
  | none => false
  | some (tmin, tmax) => decide (max 0 tmin ≤ tmax)

/-- State of the traversal loop of rayBVHIntersect: the explicit stack (head
is the top, i.e. stack[stackSize-1]) and the best hit so far. -/
structure TraverseState where
  stack : List Int
  hit : Hit
deriving DecidableEq

/-- One iteration of the traversal loop.  `Sum.inr` is a return from the
function: stack exhausted, or stack-overflow abort (the check
`stackSize >= MAX_STACK_SIZE` at the top of the loop body) which returns the
best hit discovered so far. -/
def rayBVHStep (F : RealFns) (scene : GPUScene) (ray : Ray) (s : TraverseState) :
    TraverseState ⊕ Hit :=
  match s.stack with
  | [] => Sum.inr s.hit
  | topIndex :: restStack =>
    if MAX_STACK_SIZE ≤ (topIndex :: restStack).length then Sum.inr s.hit
    else
      let currentNode := scene.bvhBuffer.getD topIndex.toNat dummyFlat
      if currentNode.isLeaf = 1 then
        let triangle := scene.triangleBuffer.getD currentNode.triangleIndex.toNat dummyTriangle
        let triangleHit := rayTriangleIntersect F ray triangle
        if triangleHit.hit ∧ triangleHit.t < s.hit.t then
          Sum.inl ⟨restStack, triangleHit⟩
        else
          Sum.inl ⟨restStack, s.hit⟩
      else
        let leftNode := scene.bvhBuffer.getD currentNode.left.toNat dummyFlat
        let stack1 :=
          if 0 ≤ currentNode.left ∧ rayAABBIntersect ray leftNode.min leftNode.max then
            currentNode.left :: restStack
          else restStack
        let rightNode := scene.bvhBuffer.getD currentNode.right.toNat dummyFlat
        let stack2 :=
          if 0 ≤ currentNode.right ∧ rayAABBIntersect ray rightNode.min rightNode.max then
            currentNode.right :: stack1
          else stack1
        Sum.inl ⟨stack2, s.hit⟩

/-- Fueled iteration of the traversal loop; `none` only when the fuel runs
out, which never happens on arrays produced by the flattener (proved below). -/
def rayBVHLoop (F : RealFns) (scene : GPUScene) (ray : Ray) :
    Nat → TraverseState → Option Hit
  | 0, _ => none
  | fuel + 1, s =>
    match rayBVHStep F scene ray s with
    | Sum.inr h => some h
    | Sum.inl s2 => rayBVHLoop F scene ray fuel s2

/-- Fuel sufficient for any well-formed flat BVH (shown below). -/
def defaultFuel (scene : GPUScene) : Nat := 3 ^ scene.bvhBuffer.length + 1

/-- rayBVHIntersect: reject against the root box, then run the stack loop. -/
def rayBVHIntersect (F : RealFns) (scene : GPUScene) (ray : Ray) (bvhIndex : Int) : Hit :=
  let rootNode := scene.bvhBuffer.getD bvhIndex.toNat dummyFlat
  if !rayAABBIntersect ray rootNode.min rootNode.max then noHit
  else (rayBVHLoop F scene ray (defaultFuel scene) ⟨[bvhIndex], noHit⟩).getD noHit

/-- raySceneIntersect: empty BVH buffer reports no hit, otherwise traverse
from the root at index 0. -/
def raySceneIntersect (F : RealFns) (scene : GPUScene) (ray : Ray) : Hit :=
  if scene.bvhBuffer.length = 0 then noHit
  else rayBVHIntersect F scene ray 0

/-- PCG-like PRNG (rand): advance the u32 state by an LCG step, then hash it
(shift-xor, multiply, shift-xor); returns the new state and the value
result / 4294967295. -/
def rand (seed : Nat) : Nat × ℚ :=
  let newSeed := (seed * 747796405 + 2891336453) % U32MOD
  let r1 := ((newSeed >>> ((newSeed >>> 28) + 4)) ^^^ newSeed) * 277803737 % U32MOD
  let r2 := (r1 >>> 22) ^^^ r1
  (newSeed, (r2 : ℚ) / 4294967295)

/-- randNormal: Box-Muller from two uniform draws. -/
def randNormal (F : RealFns) (seed : Nat) : Nat × ℚ :=
  let (s1, v1) := rand seed
  let theta := TWOPI * v1
  let (s2, v2) := rand s1
  let rho := F.sqrt (-2 * F.log v2)
  (s2, rho * F.cos theta)

/-- randDirection: three gaussians, normalized. -/
def randDirection (F : RealFns) (seed : Nat) : Nat × Vec3 :=
  let (s1, x) := randNormal F seed
  let (s2, y) := randNormal F s1
  let (s3, z) := randNormal F s2
  (s3, normalizeV F ⟨x, y, z⟩)

/-- randCosineWeightedHemisphere: normalize(normal + randDirection). -/
def randCosineWeightedHemisphere (F : RealFns) (seed : Nat) (normal : Vec3) : Nat × Vec3 :=
  let (s1, direction) := randDirection F seed
  (s1, normalizeV F (Vec3.add normal direction))

/-- randPointInCircle. -/
def randPointInCircle (F : RealFns) (seed : Nat) : Nat × (ℚ × ℚ) :=
  let (s1, v1) := rand seed
  let theta := TWOPI * v1
  let (s2, v2) := rand s1
  let rho := F.sqrt v2
  (s2, (rho * F.cos theta, rho * F.sin theta))

/-- clamp of WGSL. -/
def clampQ (x lo hi : ℚ) : ℚ := min (max x lo) hi

/-- getEnvironmentMapUVFromRay: rotate the direction about y by
envMapRotation, then equirectangular uv. -/
def getEnvironmentMapUVFromRay (F : RealFns) (u : Uniforms) (ray : Ray) : ℚ × ℚ :=
  let cosR := F.cos u.envMapRotation
  let sinR := F.sin u.envMapRotation
  let dir : Vec3 := ⟨ray.direction.x * cosR - ray.direction.z * sinR,
                     ray.direction.y,
                     ray.direction.x * sinR + ray.direction.z * cosR⟩
  let phi := F.atan2 dir.x dir.z
  let theta := F.asin (clampQ dir.y (-1) 1)
  (phi * INVTWOPI + 1/2, -theta * INVPI + 1/2)

def getEnvironmentMapColor (scene : GPUScene) (uv : ℚ × ℚ) : Vec3 :=
  scene.envMap uv.1 uv.2

/-- State of the bounce loop of trace. -/
structure TraceState where
  ray : Ray
  seed : Nat
  incomingLight : Vec3
  rayColor : Vec3

/-- One iteration of the bounce loop of trace.  On a hit: sample a diffuse
direction (cosine-weighted hemisphere), compute the mirror reflection, draw
one uniform value to classify the bounce as specular when
metalness >= rand, blend the new direction with
mix(diffuse, specular, isSpecularBounce * (1 - roughness)), add the emission
weighted by the running throughput, and attenuate the throughput by
mix(color, specularColor, isSpecularBounce).  On a miss (`Sum.inr`, the
`break`): add the environment term and leave the loop. -/
def traceStep (F : RealFns) (scene : GPUScene) (u : Uniforms) (st : TraceState) :
    TraceState ⊕ Vec3 :=
  let hit := raySceneIntersect F scene st.ray
  if hit.hit then
    let material := scene.materialBuffer.getD hit.materialIndex.toNat defaultMaterial
    let (s1, diffuseDirection) := randCosineWeightedHemisphere F st.seed hit.normal
    let specularDirection := reflect st.ray.direction hit.normal
    let (s2, rv) := rand s1
    let isSpecularBounce : ℚ := if rv ≤ material.metalness then 1 else 0
    let newDirection := Vec3.mix diffuseDirection specularDirection
      (isSpecularBounce * (1 - material.roughness))
    let emittedLight := Vec3.smul material.emissionStrength material.emissionColor
    Sum.inl
      { ray := ⟨hit.position, newDirection⟩
        seed := s2
        incomingLight := Vec3.add st.incomingLight (Vec3.hadamard emittedLight st.rayColor)
        rayColor := Vec3.hadamard st.rayColor
          (Vec3.mix material.color material.specularColor isSpecularBounce) }
  else
    let uv := getEnvironmentMapUVFromRay F u st.ray
    Sum.inr (Vec3.add st.incomingLight
      (Vec3.smul u.envMapIntensity (Vec3.hadamard st.rayColor (getEnvironmentMapColor scene uv))))

/-- The bounce loop of trace, at most maxBounces iterations; returns the
accumulated radiance and the final PRNG state (the seed is passed by pointer
in the shader and persists across samples). -/
def traceLoop (F : RealFns) (scene : GPUScene) (u : Uniforms) :
    Nat → TraceState → Vec3 × Nat
  | 0, st => (st.incomingLight, st.seed)
  | bounces + 1, st =>
    match traceStep F scene u st with
    | Sum.inl st2 => traceLoop F scene u bounces st2
    | Sum.inr light => (light, st.seed)

/-- trace: run the bounce loop starting from white throughput and zero
radiance.  A non-positive maxBounces (i32) runs zero iterations. -/
def trace (F : RealFns) (scene : GPUScene) (u : Uniforms) (seed : Nat) (ray : Ray)
    (maxBounces : Int) : Vec3 × Nat :=
  traceLoop F scene u maxBounces.toNat
    { ray := ray, seed := seed, incomingLight := Vec3.zero, rayColor := ⟨1, 1, 1⟩ }

/-- degToRad. -/
def degToRad (degrees : ℚ) : ℚ :=
  degrees * 3.14159265358979323846264338327950288 / 180

/-- cameraToRay: pinhole ray through the (u, v) film coordinate, with the
fallback up-axis when the view direction is nearly parallel to world up. -/
def cameraToRay (F : RealFns) (un : Uniforms) (camera : Camera) (uv : ℚ × ℚ) : Ray :=
  let t := F.tan (degToRad camera.fov / 2)
  let r := un.aspect * t
  let b := -t
  let l := -r
  let u := l + (r - l) * uv.1
  let v := b + (t - b) * uv.2
  let w := normalizeV F (Vec3.smul (-1) camera.direction)
  let up : Vec3 := if 0.99999 < |Vec3.dot w ⟨0, 1, 0⟩| then ⟨0, 0, 1⟩ else ⟨0, 1, 0⟩
  let uDir := normalizeV F (Vec3.cross up w)
  let vDir := Vec3.cross w uDir
  let direction := normalizeV F
    (Vec3.sub (Vec3.add (Vec3.smul u uDir) (Vec3.smul v vDir)) (Vec3.smul un.aspect w))
  ⟨camera.position, direction⟩

/-- getUv. -/
def getUv (u : Uniforms) (coord : Nat × Nat) : ℚ × ℚ :=
  ((coord.1 : ℚ) / (u.resolution.1 : ℚ), (coord.2 : ℚ) / (u.resolution.2 : ℚ))

/-- Per-pixel PRNG seed of computeMain:
`index + uniforms.frame * 719393u + SEED` with u32 wraparound. -/
def initialSeed (index frame : Nat) : Nat :=
  (index + frame * 719393 + SEED) % U32MOD

/-- One `samplesPerFrame` iteration of computeMain: camera ray, anti-aliasing
jitter of the focal point, aperture jitter of the origin, re-aim, trace. -/
def sampleOnce (F : RealFns) (scene : GPUScene) (u : Uniforms) (uv : ℚ × ℚ)
    (seed : Nat) : Nat × Vec3 :=
  let ray := cameraToRay F u u.camera uv
  let (s1, j1) := randPointInCircle F seed
  let jitter : Vec3 := ⟨j1.1 * (1 / (u.resolution.1 : ℚ)), j1.2 * (1 / (u.resolution.2 : ℚ)), 0⟩
  let (s2, j2) := randPointInCircle F s1
  let jitter2 : Vec3 := ⟨j2.1 * u.camera.aperture, j2.2 * u.camera.aperture, 0⟩
  let focalPoint := Vec3.add (Vec3.add ray.origin
    (Vec3.smul u.camera.focalDistance ray.direction)) jitter
  let origin2 := Vec3.add ray.origin jitter2
  let direction2 := normalizeV F (Vec3.sub focalPoint origin2)
  let (light, s3) := trace F scene u s2 ⟨origin2, direction2⟩ u.maxBounces
  (s3, light)

/-- The sample loop of computeMain (seed threaded across samples). -/
def samplesLoop (F : RealFns) (scene : GPUScene) (u : Uniforms) (uv : ℚ × ℚ) :
    Nat → Nat → Vec3 → Nat × Vec3
  | 0, seed, acc => (seed, acc)
  | n + 1, seed, acc =>
    let (s2, light) := sampleOnce F scene u uv seed
    samplesLoop F scene u uv n s2 (Vec3.add acc light)

/-- Per-pixel body of computeMain for an in-bounds invocation: deterministic
seed from pixel index and frame, samplesPerFrame traced samples, averaged. -/
def renderPixel (F : RealFns) (scene : GPUScene) (u : Uniforms) (gx gy : Nat) : Vec3 :=
  let uv := getUv u (gx, gy)
  let index := gx + gy * u.resolution.1
  let seed := initialSeed index u.frame
  let (_, incomingLight) := samplesLoop F scene u uv u.samplesPerFrame.toNat seed Vec3.zero
  Vec3.smul (1 / ((u.samplesPerFrame : ℚ))) incomingLight

end Shader

/-! ## Accumulation shader (src/passes/shaders/accumulate.wgsl) -/

structure AccumUniforms where
  resolution : Nat × Nat
  frame : Nat
  enabled : Nat
deriving DecidableEq

/-- Per-pixel body of the accumulate pass computeMain:
`newColor = mix(prevColor, color, weight)` with `weight = 1 / frame`,
overridden to 1 when the accumulation toggle is off (`enabled == 0`). -/
def accumulatePixel (au : AccumUniforms) (color prevColor : Vec3) : Vec3 :=
  let weight0 : ℚ := 1 / (au.frame : ℚ)
  let weight := if au.enabled = 0 then 1 else weight0
  Vec3.mix prevColor color weight

/-! ## Renderer state machine (src/renderer.ts) -/

inductive RStatus where
  | idle
  | sampling
  | paused
deriving DecidableEq

/-- The renderer state driving progressive sampling: the frame counter
(starts at 1), the sample budget (`frames`) and the tri-state status. -/
structure RendererState where
  frame : Nat
  frames : Nat
  status : RStatus
deriving DecidableEq

/-- The `frame` setter of Renderer: assigns the counter and flips the status
to idle (emitting `complete`) once the counter exceeds the budget. -/
def setFrame (s : RendererState) (value : Nat) : RendererState :=
  if s.frames < value then { s with frame := value, status := RStatus.idle }
  else { s with frame := value }

/-- hasFramesToSample getter. -/
def hasFramesToSample (s : RendererState) : Bool := decide (s.frame ≤ s.frames)

/-- Renderer.reset: status is parked on `paused` while buffers are swapped,
then the counter returns to 1 and the status becomes `sampling` when it was
`idle`, otherwise whatever it was before the call. -/
def rendererReset (s : RendererState) : RendererState :=
  let prevStatus := s.status
  { s with
      frame := 1
      status := if prevStatus = RStatus.idle then RStatus.sampling else prevStatus }

/-- Result of one Renderer.render tick: the updated state, whether this tick
sampled (raytrace + accumulate passes dispatched), and the frame-counter
value the passes read through their `update()` when they run (the increment
happens before the passes are updated and dispatched). -/
structure TickResult where
  state : RendererState
  sampled : Bool
  passFrame : Nat
deriving DecidableEq

/-- Renderer.render control flow: `shouldSample` when status is `sampling`
and frames remain; the counter is incremented (through the `frame` setter)
before the passes are updated and rendered. -/
def renderTick (s : RendererState) : TickResult :=
  let shouldSample := s.status = RStatus.sampling ∧ s.frame ≤ s.frames
  if shouldSample then
    let s2 := setFrame s (s.frame + 1)
    { state := s2, sampled := true, passFrame := s2.frame }
  else
    { state := s, sampled := false, passFrame := s.frame }

/-- Modelled from the spec: `src/passes/accumulate.ts` (the AccumulatePass
class) is not part of the source tree, only its WGSL shader and its callers
in `src/renderer.ts` are.  Per the spec's accumulation contract ("merge:
newImage = lerp(previousImage, currentSampleImage, 1/frameCounter)"), its
`update()` forwards the renderer's current frame counter to the shader's
`frame` uniform, as RaytracePass.update does for the raytrace shader. -/
def accumUniformsOfTick (t : TickResult) (resolution : Nat × Nat) (enabled : Nat) :
    AccumUniforms :=
  ⟨resolution, t.passFrame, enabled⟩

/-! ## Termination of the BVH traversal on well-formed arrays -/

namespace Shader

/-- Any index sitting on the traversal stack is a valid node index. -/
def StackOK (fs : List BVHNodeFlat) (stack : List Int) : Prop :=
  ∀ i ∈ stack, 0 ≤ i ∧ i.toNat < fs.length

/-- Termination potential: flat BVH children always have strictly larger
indices than their parent, so replacing `3 ^ (N - i)` by at most
`2 * 3 ^ (N - i - 1)` strictly shrinks the sum. -/
def stackPotential (N : Nat) (stack : List Int) : Nat :=
  (stack.map (fun i => 3 ^ (N - i.toNat))).sum

theorem rayBVHStep_aborts (F : RealFns) (scene : GPUScene) (ray : Ray)
    (s : TraverseState) (h : MAX_STACK_SIZE ≤ s.stack.length) :
    rayBVHStep F scene ray s = Sum.inr s.hit := by
  match hs : s.stack with
  | [] => simp [rayBVHStep, hs]
  | top :: rest =>
    rw [hs] at h
    simp only [rayBVHStep, hs, if_pos h]

theorem rayBVHStep_stack_bounded (F : RealFns) (scene : GPUScene) (ray : Ray)
    (s s2 : TraverseState) (h : rayBVHStep F scene ray s = Sum.inl s2) :
    s2.stack.length ≤ MAX_STACK_SIZE := by
  match hs : s.stack with
  | [] => simp [rayBVHStep, hs] at h
  | top :: rest =>
    simp only [rayBVHStep, hs] at h
    by_cases hmax : MAX_STACK_SIZE ≤ (top :: rest).length
    · rw [if_pos hmax] at h; cases h
    · rw [if_neg hmax] at h
      simp only [List.length_cons, not_le] at hmax
      by_cases hleaf : (scene.bvhBuffer.getD top.toNat dummyFlat).isLeaf = 1
      · rw [if_pos hleaf] at h
        by_cases hbetter : (rayTriangleIntersect F ray
            (scene.triangleBuffer.getD
              (scene.bvhBuffer.getD top.toNat dummyFlat).triangleIndex.toNat dummyTriangle)).hit ∧
            (rayTriangleIntersect F ray
              (scene.triangleBuffer.getD
                (scene.bvhBuffer.getD top.toNat dummyFlat).triangleIndex.toNat dummyTriangle)).t < s.hit.t
        · rw [if_pos hbetter] at h
          cases h
          simp only [MAX_STACK_SIZE] at *
          omega
        · rw [if_neg hbetter] at h
          cases h
          simp only [MAX_STACK_SIZE] at *
          omega
      · rw [if_neg hleaf] at h
        cases h
        have hlen1 : (if 0 ≤ (scene.bvhBuffer.getD top.toNat dummyFlat).left ∧
            rayAABBIntersect ray
              (scene.bvhBuffer.getD (scene.bvhBuffer.getD top.toNat dummyFlat).left.toNat dummyFlat).min
              (scene.bvhBuffer.getD (scene.bvhBuffer.getD top.toNat dummyFlat).left.toNat dummyFlat).max
            then (scene.bvhBuffer.getD top.toNat dummyFlat).left :: rest else rest).length ≤
            rest.length + 1 := by
          split <;> simp
        set stack1 := (if 0 ≤ (scene.bvhBuffer.getD top.toNat dummyFlat).left ∧
            rayAABBIntersect ray
              (scene.bvhBuffer.getD (scene.bvhBuffer.getD top.toNat dummyFlat).left.toNat dummyFlat).min
              (scene.bvhBuffer.getD (scene.bvhBuffer.getD top.toNat dummyFlat).left.toNat dummyFlat).max
            then (scene.bvhBuffer.getD top.toNat dummyFlat).left :: rest else rest) with hstack1
        have hlen2 : (if 0 ≤ (scene.bvhBuffer.getD top.toNat dummyFlat).right ∧
            rayAABBIntersect ray
              (scene.bvhBuffer.getD (scene.bvhBuffer.getD top.toNat dummyFlat).right.toNat dummyFlat).min
              (scene.bvhBuffer.getD (scene.bvhBuffer.getD top.toNat dummyFlat).right.toNat dummyFlat).max
            then (scene.bvhBuffer.getD top.toNat dummyFlat).right :: stack1 else stack1).length ≤
            stack1.length + 1 := by
          split <;> simp
        simp only [MAX_STACK_SIZE] at *
        omega

theorem add_shuffle_le1 (a b t : Nat) : b + (a + t) ≤ a + b + t := by omega

theorem add_shuffle_le2 (a b t : Nat) : b + t ≤ a + b + t := by omega

theorem add_shuffle_le3 (a b t : Nat) : a + t ≤ a + b + t := by omega

theorem add_shuffle_le4 (a b t : Nat) : t ≤ a + b + t := by omega

theorem rayBVHStep_progress (F : RealFns) (scene : GPUScene) (ray : Ray)
    (hwf : ∀ k, k < scene.bvhBuffer.length → NodeOK scene.bvhBuffer 0 k)
    (s s2 : TraverseState) (hok : StackOK scene.bvhBuffer s.stack)
    (h : rayBVHStep F scene ray s = Sum.inl s2) :
    StackOK scene.bvhBuffer s2.stack ∧
      stackPotential scene.bvhBuffer.length s2.stack <
        stackPotential scene.bvhBuffer.length s.stack := by
  match hs : s.stack with
  | [] => simp [rayBVHStep, hs] at h
  | top :: rest =>
    have hokrest : StackOK scene.bvhBuffer rest := by
      intro i hi; exact hok i (by rw [hs]; exact List.mem_cons_of_mem _ hi)
    have hoktop := hok top (by rw [hs]; exact List.mem_cons_self _ _)
    simp only [rayBVHStep, hs] at h
    by_cases hmax : MAX_STACK_SIZE ≤ (top :: rest).length
    · rw [if_pos hmax] at h; cases h
    rw [if_neg hmax] at h
    have hnode := hwf top.toNat hoktop.2
    unfold NodeOK at hnode
    obtain ⟨hleafcase, _, hinternal⟩ := hnode
    have hpotpos : 0 < 3 ^ (scene.bvhBuffer.length - top.toNat) :=
      Nat.pos_pow_of_pos _ (by omega)
    by_cases hleaf : (scene.bvhBuffer.getD top.toNat dummyFlat).isLeaf = 1
    · rw [if_pos hleaf] at h
      have hconc : StackOK scene.bvhBuffer rest ∧
          stackPotential scene.bvhBuffer.length rest <
            stackPotential scene.bvhBuffer.length (top :: rest) := by
        refine ⟨hokrest, ?_⟩
        simp only [stackPotential, List.map_cons, List.sum_cons]
        omega
      split at h <;> (cases h; exact hconc)
    · rw [if_neg hleaf] at h
      have hisleaf0 : (scene.bvhBuffer.getD top.toNat dummyFlat).isLeaf = 0 := by
        rcases hleafcase with h0 | h1
        · exact h0
        · exact absurd h1 hleaf
      obtain ⟨_, li, hleft, hright, hgt, hbound, _, _⟩ := hinternal hisleaf0
      cases h
      have hlik : top.toNat < li := by omega
      have hliN : li + 1 < scene.bvhBuffer.length := by omega
      have hponat : ((li : Int)).toNat = li := by simp
      have hponat2 : (((li + 1 : Nat) : Int)).toNat = li + 1 := by simp
      constructor
      · intro i hi
        simp only at hi
        have hcases : i = (scene.bvhBuffer.getD top.toNat dummyFlat).left ∨
            i = (scene.bvhBuffer.getD top.toNat dummyFlat).right ∨ i ∈ rest := by
          split at hi
          · rcases List.mem_cons.mp hi with hieq | hi2
            · exact Or.inr (Or.inl hieq)
            · split at hi2
              · rcases List.mem_cons.mp hi2 with hieq | hi3
                · exact Or.inl hieq
                · exact Or.inr (Or.inr hi3)
              · exact Or.inr (Or.inr hi2)
          · split at hi
            · rcases List.mem_cons.mp hi with hieq | hi2
              · exact Or.inl hieq
              · exact Or.inr (Or.inr hi2)
            · exact Or.inr (Or.inr hi)
        rcases hcases with hieq | hieq | hmem
        · subst hieq
          rw [hleft]
          refine ⟨Int.ofNat_nonneg li, ?_⟩
          rw [hponat]
          omega
        · subst hieq
          rw [hright]
          refine ⟨Int.ofNat_nonneg _, ?_⟩
          rw [hponat2]
          omega
        · exact hokrest i hmem
      · simp only [stackPotential, List.map_cons, List.sum_cons]
        have hexp1 : 3 ^ (scene.bvhBuffer.length - li) ≤
            3 ^ (scene.bvhBuffer.length - top.toNat - 1) :=
          Nat.pow_le_pow_right (by omega) (by omega)
        have hexp2 : 3 ^ (scene.bvhBuffer.length - (li + 1)) ≤
            3 ^ (scene.bvhBuffer.length - top.toNat - 1) :=
          Nat.pow_le_pow_right (by omega) (by omega)
        have hsplit : 3 ^ (scene.bvhBuffer.length - top.toNat) =
            3 ^ (scene.bvhBuffer.length - top.toNat - 1) * 3 := by
          rw [← pow_succ]
          congr 1
          omega
        have hpush : ((if 0 ≤ (scene.bvhBuffer.getD top.toNat dummyFlat).right ∧
              rayAABBIntersect ray
                (scene.bvhBuffer.getD (scene.bvhBuffer.getD top.toNat dummyFlat).right.toNat dummyFlat).min
                (scene.bvhBuffer.getD (scene.bvhBuffer.getD top.toNat dummyFlat).right.toNat dummyFlat).max
              then (scene.bvhBuffer.getD top.toNat dummyFlat).right ::
                (if 0 ≤ (scene.bvhBuffer.getD top.toNat dummyFlat).left ∧
                  rayAABBIntersect ray
                    (scene.bvhBuffer.getD (scene.bvhBuffer.getD top.toNat dummyFlat).left.toNat dummyFlat).min
                    (scene.bvhBuffer.getD (scene.bvhBuffer.getD top.toNat dummyFlat).left.toNat dummyFlat).max
                  then (scene.bvhBuffer.getD top.toNat dummyFlat).left :: rest else rest)
              else (if 0 ≤ (scene.bvhBuffer.getD top.toNat dummyFlat).left ∧
                  rayAABBIntersect ray
                    (scene.bvhBuffer.getD (scene.bvhBuffer.getD top.toNat dummyFlat).left.toNat dummyFlat).min
                    (scene.bvhBuffer.getD (scene.bvhBuffer.getD top.toNat dummyFlat).left.toNat dummyFlat).max
                  then (scene.bvhBuffer.getD top.toNat dummyFlat).left :: rest else rest)).map
              (fun i => 3 ^ (scene.bvhBuffer.length - i.toNat))).sum ≤
            3 ^ (scene.bvhBuffer.length - li) + 3 ^ (scene.bvhBuffer.length - (li + 1)) +
              ((rest.map (fun i => 3 ^ (scene.bvhBuffer.length - i.toNat))).sum) := by
          rw [hleft, hright]
          split
          · split
            · simp only [List.map_cons, List.sum_cons, hponat, hponat2]
              exact add_shuffle_le1 _ _ _
            · simp only [List.map_cons, List.sum_cons, hponat, hponat2]
              exact add_shuffle_le2 _ _ _
          · split
            · simp only [List.map_cons, List.sum_cons, hponat, hponat2]
              exact add_shuffle_le3 _ _ _
            · exact add_shuffle_le4 _ _ _
        omega

theorem rayBVHLoop_terminates (F : RealFns) (scene : GPUScene) (ray : Ray)
    (hwf : ∀ k, k < scene.bvhBuffer.length → NodeOK scene.bvhBuffer 0 k) :
    ∀ (fuel : Nat) (s : TraverseState), StackOK scene.bvhBuffer s.stack →
      stackPotential scene.bvhBuffer.length s.stack < fuel →
      ∃ h, rayBVHLoop F scene ray fuel s = some h := by
  intro fuel
  induction fuel with
  | zero => intro s _ hpot; omega
  | succ fuel ih =>
    intro s hok hpot
    rcases hstep : rayBVHStep F scene ray s with s2 | h
    · obtain ⟨hok2, hdec⟩ := rayBVHStep_progress F scene ray hwf s s2 hok hstep
      obtain ⟨h, hloop⟩ := ih s2 hok2 (by omega)
      exact ⟨h, by simp [rayBVHLoop, hstep, hloop]⟩
    · exact ⟨h, by simp [rayBVHLoop, hstep]⟩

end Shader

/-! ## Specification of the slab test (claim C5) -/

namespace Shader

/-- An axis whose ray-direction component is near zero (the special case of
the slab test). -/
def axisParallel (ray : Ray) (i : Axis) : Prop := |Vec3.comp ray.direction i| < EPSILON

instance (ray : Ray) (i : Axis) : Decidable (axisParallel ray i) := by
  unfold axisParallel; infer_instance

/-- The ray origin lies inside the slab of axis `i`. -/
def originInSlab (ray : Ray) (aabbMin aabbMax : Vec3) (i : Axis) : Prop :=
  ¬(Vec3.comp ray.origin i < Vec3.comp aabbMin i ∨
    Vec3.comp aabbMax i < Vec3.comp ray.origin i)

instance (ray : Ray) (aabbMin aabbMax : Vec3) (i : Axis) :
    Decidable (originInSlab ray aabbMin aabbMax i) := by
  unfold originInSlab; infer_instance

/-- Near parametric distance of the slab of axis `i`. -/
def slabTNear (ray : Ray) (aabbMin aabbMax : Vec3) (i : Axis) : ℚ :=
  min ((Vec3.comp aabbMin i - Vec3.comp ray.origin i) / Vec3.comp ray.direction i)
      ((Vec3.comp aabbMax i - Vec3.comp ray.origin i) / Vec3.comp ray.direction i)

/-- Far parametric distance of the slab of axis `i`. -/
def slabTFar (ray : Ray) (aabbMin aabbMax : Vec3) (i : Axis) : ℚ :=
  max ((Vec3.comp aabbMin i - Vec3.comp ray.origin i) / Vec3.comp ray.direction i)
      ((Vec3.comp aabbMax i - Vec3.comp ray.origin i) / Vec3.comp ray.direction i)

/-- The non-parallel axes, in order. -/
def nonParallelAxes (ray : Ray) (axes : List Axis) : List Axis :=
  axes.filter (fun i => !decide (axisParallel ray i))

/-- tMin of the specified slab test: the largest near distance over the
non-parallel axes (starting from the -INF sentinel of the code). -/
def specTMin (ray : Ray) (aabbMin aabbMax : Vec3) (axes : List Axis) (t0 : ℚ) : ℚ :=
  ((nonParallelAxes ray axes).map (slabTNear ray aabbMin aabbMax)).foldl max t0

/-- tMax of the specified slab test: the smallest far distance over the
non-parallel axes (starting from the INF sentinel of the code). -/
def specTMax (ray : Ray) (aabbMin aabbMax : Vec3) (axes : List Axis) (t0 : ℚ) : ℚ :=
  ((nonParallelAxes ray axes).map (slabTFar ray aabbMin aabbMax)).foldl min t0

/-- The slab-test specification of the claim: a hit iff every near-parallel
axis has the ray origin inside its slab, and tMax >= max(0, tMin) over the
remaining per-axis slab intervals. -/
def slabSpecHit (ray : Ray) (aabbMin aabbMax : Vec3) : Prop :=
  (∀ i ∈ slabAxes, axisParallel ray i → originInSlab ray aabbMin aabbMax i) ∧
  max 0 (specTMin ray aabbMin aabbMax slabAxes (-INF)) ≤
    specTMax ray aabbMin aabbMax slabAxes INF

instance (ray : Ray) (aabbMin aabbMax : Vec3) : Decidable (slabSpecHit ray aabbMin aabbMax) := by
  unfold slabSpecHit; infer_instance

theorem le_foldl_max (l : List ℚ) : ∀ t0 : ℚ, t0 ≤ l.foldl max t0 := by
  induction l with
  | nil => intro t0; exact le_refl _
  | cons a as ih =>
    intro t0
    exact le_trans (le_max_left t0 a) (ih (max t0 a))

theorem foldl_min_le (l : List ℚ) : ∀ t0 : ℚ, l.foldl min t0 ≤ t0 := by
  induction l with
  | nil => intro t0; exact le_refl _
  | cons a as ih =>
    intro t0
    exact le_trans (ih (min t0 a)) (min_le_left t0 a)

theorem rayAABBLoop_char (ray : Ray) (aabbMin aabbMax : Vec3) :
    ∀ (axes : List Axis) (tmin tmax : ℚ),
      (match rayAABBLoop ray aabbMin aabbMax axes tmin tmax with
        | none => False
        | some (a, b) => max 0 a ≤ b) ↔
      ((∀ i ∈ axes, axisParallel ray i → originInSlab ray aabbMin aabbMax i) ∧
        max 0 (specTMin ray aabbMin aabbMax axes tmin) ≤
          specTMax ray aabbMin aabbMax axes tmax) := by
  intro axes
  induction axes with
  | nil =>
    intro tmin tmax
    simp [rayAABBLoop, specTMin, specTMax, nonParallelAxes]
  | cons i restAxes ih =>
    intro tmin tmax
    by_cases hpar : axisParallel ray i
    · by_cases hin : originInSlab ray aabbMin aabbMax i
      · have hpar2 : |Vec3.comp ray.direction i| < EPSILON := hpar
        have hin2 : ¬(Vec3.comp ray.origin i < Vec3.comp aabbMin i ∨
            Vec3.comp ray.origin i > Vec3.comp aabbMax i) := hin
        have hloop : rayAABBLoop ray aabbMin aabbMax (i :: restAxes) tmin tmax =
            rayAABBLoop ray aabbMin aabbMax restAxes tmin tmax := by
          simp only [rayAABBLoop]
          rw [if_pos hpar2, if_neg hin2]
        have hfilter : nonParallelAxes ray (i :: restAxes) = nonParallelAxes ray restAxes := by
          unfold nonParallelAxes
          simp [List.filter_cons, hpar]
        rw [hloop, ih tmin tmax]
        unfold specTMin specTMax
        rw [hfilter]
        constructor
        · rintro ⟨hrest, hval⟩
          exact ⟨by
            intro j hj hjp
            rcases List.mem_cons.mp hj with hji | hjR
            · subst hji; exact hin
            · exact hrest j hjR hjp, hval⟩
        · rintro ⟨hall, hval⟩
          exact ⟨fun j hj hjp => hall j (List.mem_cons_of_mem _ hj) hjp, hval⟩
      · have hpar2 : |Vec3.comp ray.direction i| < EPSILON := hpar
        have hin2 : Vec3.comp ray.origin i < Vec3.comp aabbMin i ∨
            Vec3.comp ray.origin i > Vec3.comp aabbMax i := by
          unfold originInSlab at hin
          tauto
        have hloop : rayAABBLoop ray aabbMin aabbMax (i :: restAxes) tmin tmax = none := by
          simp only [rayAABBLoop]
          rw [if_pos hpar2, if_pos hin2]
        rw [hloop]
        simp only [false_iff, not_and]
        intro hall
        exact absurd (hall i (List.mem_cons_self _ _) hpar) hin
    · have hfilter : nonParallelAxes ray (i :: restAxes) = i :: nonParallelAxes ray restAxes := by
        unfold nonParallelAxes
        simp [List.filter_cons, hpar]
      set tNear := slabTNear ray aabbMin aabbMax i with htNear
      set tFar := slabTFar ray aabbMin aabbMax i with htFar
      have hTMin : specTMin ray aabbMin aabbMax (i :: restAxes) tmin =
          specTMin ray aabbMin aabbMax restAxes (max tmin tNear) := by
        unfold specTMin
        rw [hfilter]
        simp [slabTNear, htNear]
      have hTMax : specTMax ray aabbMin aabbMax (i :: restAxes) tmax =
          specTMax ray aabbMin aabbMax restAxes (min tmax tFar) := by
        unfold specTMax
        rw [hfilter]
        simp [slabTFar, htFar]
      by_cases hempty : max tmin tNear > min tmax tFar
      · have hpar2 : ¬|Vec3.comp ray.direction i| < EPSILON := hpar
        have hloop : rayAABBLoop ray aabbMin aabbMax (i :: restAxes) tmin tmax = none := by
          simp only [rayAABBLoop]
          rw [if_neg hpar2, if_pos ?hc]
          case hc =>
            rw [htNear, slabTNear] at hempty
            rw [htFar, slabTFar] at hempty
            exact hempty
        rw [hloop]
        simp only [false_iff, not_and]
        intro _
        rw [hTMin, hTMax]
        intro hcon
        have h1 : max tmin tNear ≤ specTMin ray aabbMin aabbMax restAxes (max tmin tNear) :=
          le_foldl_max _ _
        have h2 : specTMax ray aabbMin aabbMax restAxes (min tmax tFar) ≤ min tmax tFar :=
          foldl_min_le _ _
        have h3 : max tmin tNear ≤ max 0 (specTMin ray aabbMin aabbMax restAxes (max tmin tNear)) :=
          le_trans h1 (le_max_right _ _)
        have := le_trans h3 (le_trans hcon h2)
        exact absurd this (not_le.mpr hempty)
      · have hpar2 : ¬|Vec3.comp ray.direction i| < EPSILON := hpar
        have hloop : rayAABBLoop ray aabbMin aabbMax (i :: restAxes) tmin tmax =
            rayAABBLoop ray aabbMin aabbMax restAxes (max tmin tNear) (min tmax tFar) := by
          simp only [rayAABBLoop]
          rw [if_neg hpar2, if_neg ?hc]
          case hc =>
            rw [htNear, slabTNear] at hempty
            rw [htFar, slabTFar] at hempty
            exact hempty
          rw [htNear, slabTNear, htFar, slabTFar]
        rw [hloop, ih (max tmin tNear) (min tmax tFar), hTMin, hTMax]
        constructor
        · rintro ⟨hrest, hval⟩
          refine ⟨?_, hval⟩
          intro j hj hjp
          rcases List.mem_cons.mp hj with hji | hjR
          · subst hji; exact absurd hjp hpar
          · exact hrest j hjR hjp
        · rintro ⟨hall, hval⟩
          exact ⟨fun j hj hjp => hall j (List.mem_cons_of_mem _ hj) hjp, hval⟩

/-- The slab test agrees with its interval-intersection specification at
every input. -/
theorem rayAABBIntersect_iff_slabSpec (ray : Ray) (aabbMin aabbMax : Vec3) :
    rayAABBIntersect ray aabbMin aabbMax = true ↔ slabSpecHit ray aabbMin aabbMax := by
  have hchar := rayAABBLoop_char ray aabbMin aabbMax slabAxes (-INF) INF
  unfold rayAABBIntersect slabSpecHit
  rcases hloop : rayAABBLoop ray aabbMin aabbMax slabAxes (-INF) INF with _ | ⟨a, b⟩
  · rw [hloop] at hchar
    simp only [Bool.false_eq_true, false_iff] at hchar ⊢
    exact fun hcon => hchar hcon
  · rw [hloop] at hchar
    simp only [decide_eq_true_eq]
    exact hchar

end Shader

/-! ## Split-cost optimality and the longest-axis specification (claim C2) -/

theorem minCostFold_go_min (cost : Nat → ℚ) (ks : List Nat) :
    ∀ c0 k0, ∃ c k, ks.foldl
      (fun acc k => match acc with
        | none => some (cost k, k)
        | some (c, j) => if cost k < c then some (cost k, k) else some (c, j))
      (some (c0, k0)) = some (c, k) ∧ c ≤ c0 ∧ (∀ j ∈ ks, c ≤ cost j) ∧
      ((c = cost k ∧ k ∈ ks) ∨ (c = c0 ∧ k = k0)) := by
  induction ks with
  | nil =>
    intro c0 k0
    exact ⟨c0, k0, by simp, le_refl _, by simp, Or.inr ⟨rfl, rfl⟩⟩
  | cons a as ih =>
    intro c0 k0
    simp only [List.foldl_cons]
    by_cases hlt : cost a < c0
    · rcases ih (cost a) a with ⟨c, k, hfold, hle, hall, hmem⟩
      refine ⟨c, k, by simpa [hlt] using hfold, le_of_lt (lt_of_le_of_lt hle hlt), ?_, ?_⟩
      · intro j hj
        rcases List.mem_cons.mp hj with hja | hjas
        · subst hja; exact hle
        · exact hall j hjas
      · rcases hmem with ⟨h1, h2⟩ | ⟨h1, h2⟩
        · exact Or.inl ⟨h1, List.mem_cons_of_mem _ h2⟩
        · subst h2; exact Or.inl ⟨h1, List.mem_cons_self _ _⟩
    · rcases ih c0 k0 with ⟨c, k, hfold, hle, hall, hmem⟩
      refine ⟨c, k, by simpa [hlt] using hfold, hle, ?_, ?_⟩
      · intro j hj
        rcases List.mem_cons.mp hj with hja | hjas
        · subst hja; exact le_trans hle (not_lt.mp hlt)
        · exact hall j hjas
      · rcases hmem with ⟨h1, h2⟩ | ⟨h1, h2⟩
        · exact Or.inl ⟨h1, List.mem_cons_of_mem _ h2⟩
        · exact Or.inr ⟨h1, h2⟩

/-- The index chosen by the builder's split search minimises the SAH cost
over all split indices 1 .. n-1. -/
theorem minSplitIndex_min (ns : List BVHTree) (h3 : 3 ≤ ns.length) :
    ∀ j, 1 ≤ j → j ≤ ns.length - 1 →
      splitCost ns (minSplitIndex ns) ≤ splitCost ns j := by
  intro j hj1 hj2
  have hrange : List.range' 1 (ns.length - 1) = 1 :: List.range' 2 (ns.length - 2) := by
    have harith : ns.length - 1 = (ns.length - 2) + 1 := by omega
    rw [harith, List.range'_succ]
  unfold minSplitIndex minCostFold
  rw [hrange]
  simp only [List.foldl_cons]
  rcases minCostFold_go_min (splitCost ns) (List.range' 2 (ns.length - 2))
    (splitCost ns 1) 1 with ⟨c, k, hfold, hle, hall, hmem⟩
  rw [hfold]
  simp only [Option.map_some', Option.getD_some]
  have hc : c = splitCost ns k := by
    rcases hmem with ⟨h1, _⟩ | ⟨h1, h2⟩
    · exact h1
    · subst h2; exact h1
  rw [← hc]
  by_cases hj : j = 1
  · subst hj; exact hle
  · refine hall j ?_
    rw [List.mem_range']
    exact ⟨j - 2, by omega, by omega⟩

theorem buildBVHRecursiveGo_ok :
    ∀ (fuel : Nat) (ns : List BVHTree), ns.length ≤ fuel → ns ≠ [] →
      ∃ t, buildBVHRecursiveGo fuel ns = Except.ok t := by
  intro fuel
  induction fuel with
  | zero =>
    intro ns hlen hne
    match ns, hne with
    | n :: rest, _ => simp at hlen
  | succ fuel ih =>
    intro ns hlen hne
    match ns with
    | [n] => exact ⟨n, rfl⟩
    | [n1, n2] =>
      exact ⟨BVHTree.internal (computeBBox [n1, n2]) n1 n2, rfl⟩
    | n1 :: n2 :: n3 :: rest =>
      set sorted := stableSortBy
        (centerLE (chooseSplitAxis (computeBBox (n1 :: n2 :: n3 :: rest)).size))
        (n1 :: n2 :: n3 :: rest) with hsorted
      set k := minSplitIndex sorted with hk
      have hslen : sorted.length = (n1 :: n2 :: n3 :: rest).length := length_stableSortBy _ _
      have hkb : 1 ≤ k ∧ k ≤ sorted.length - 1 := by
        rw [hk]
        refine minSplitIndex_bounds sorted ?_
        rw [hslen]; simp
      have hcc : sorted.length = rest.length + 3 := by rw [hslen]; simp
      have hNN : rest.length + 3 ≤ fuel + 1 := by simpa using hlen
      obtain ⟨l, hl⟩ := ih (sorted.take k)
        (by simp only [List.length_take]; omega)
        (by
          intro hcon
          have := congrArg List.length hcon
          simp only [List.length_take, List.length_nil] at this
          omega)
      obtain ⟨r, hr⟩ := ih (sorted.drop k)
        (by simp only [List.length_drop]; omega)
        (by
          intro hcon
          have := congrArg List.length hcon
          simp only [List.length_drop, List.length_nil] at this
          omega)
      refine ⟨BVHTree.internal (computeBBox (n1 :: n2 :: n3 :: rest)) l r, ?_⟩
      rw [buildBVHRecursiveGo]
      rw [← hsorted, ← hk, hl, hr]

theorem buildBVHRecursive_ok (ns : List BVHTree) (hne : ns ≠ []) :
    ∃ t, buildBVHRecursive ns = Except.ok t :=
  buildBVHRecursiveGo_ok ns.length ns (le_refl _) hne

/-- The longest axis of a box size, as the claim words it ("the longest axis
of the set's bounding box"); ties resolved toward x then y (the
counterexample below uses a box with three distinct extents, so no tie is
involved). -/
def longestAxis (s : Vec3) : Axis :=
  if s.y ≤ s.x ∧ s.z ≤ s.x then Axis.x
  else if s.z ≤ s.y then Axis.y
  else Axis.z

/-- The recursive BVH build exactly as claim C2 words it: identical to
`buildBVHRecursive` except that the split axis is the longest axis of the
candidate set's bounding box (fueled exactly like `buildBVHRecursiveGo`). -/
def buildBVHRecursiveSpecLongestGo : Nat → List BVHTree → Except BuildError BVHTree
  | _, [] => Except.error BuildError.emptyInput
  | _, [n] => Except.ok n
  | _, [n1, n2] =>
    Except.ok (BVHTree.internal (computeBBox [n1, n2]) n1 n2)
  | 0, _ :: _ :: _ :: _ => Except.error BuildError.emptyInput
  | fuel + 1, n1 :: n2 :: n3 :: rest =>
    let ns := n1 :: n2 :: n3 :: rest
    let bbox := computeBBox ns
    let axis := longestAxis bbox.size
    let sorted := stableSortBy (centerLE axis) ns
    let k := minSplitIndex sorted
    match buildBVHRecursiveSpecLongestGo fuel (sorted.take k),
        buildBVHRecursiveSpecLongestGo fuel (sorted.drop k) with
    | Except.ok l, Except.ok r => Except.ok (BVHTree.internal bbox l r)
    | Except.error e, _ => Except.error e
    | _, Except.error e => Except.error e

def buildBVHRecursiveSpecLongest (inputNodes : List BVHTree) : Except BuildError BVHTree :=
  buildBVHRecursiveSpecLongestGo inputNodes.length inputNodes

/-! ## Decidability helpers and concrete inputs for the claims -/

instance : DecidableEq (Except BuildError BVHTree) := fun a b =>
  match a, b with
  | Except.ok x, Except.ok y =>
    match decEq x y with
    | isTrue h => isTrue (by rw [h])
    | isFalse h => isFalse (fun hc => by cases hc; exact h rfl)
  | Except.error x, Except.error y =>
    match decEq x y with
    | isTrue h => isTrue (by rw [h])
    | isFalse h => isFalse (fun hc => by cases hc; exact h rfl)
  | Except.ok _, Except.error _ => isFalse (fun hc => by cases hc)
  | Except.error _, Except.ok _ => isFalse (fun hc => by cases hc)

instance TreeInv.decidable : (t : BVHTree) → Decidable (TreeInv t)
  | BVHTree.leaf b _ => inferInstanceAs (Decidable (Box3.IsValid b))
  | BVHTree.internal b l r =>
    have hl : Decidable (TreeInv l) := TreeInv.decidable l
    have hr : Decidable (TreeInv r) := TreeInv.decidable r
    inferInstanceAs (Decidable (_ ∧ _ ∧ _ ∧ _ ∧ _))

/-- Three point-box leaves whose overall box has size (1, 2, 3): the split
axis chosen by the builder is y, the longest axis is z, and the built trees
differ. -/
def nsC2 : List BVHTree :=
  [BVHTree.leaf (Box3.pointBox ⟨0, 0, 0⟩) 0,
   BVHTree.leaf (Box3.pointBox ⟨1, 2, 3/2⟩) 1,
   BVHTree.leaf (Box3.pointBox ⟨1/2, 1, 3⟩) 2]

/-- Two separated triangles in the z = 0 plane. -/
def tsC3 : List Triangle :=
  [⟨⟨0, 0, 0⟩, ⟨1, 0, 0⟩, ⟨0, 1, 0⟩, ⟨0, 0, 1⟩, ⟨0, 0, 1⟩, ⟨0, 0, 1⟩, 0⟩,
   ⟨⟨2, 0, 0⟩, ⟨3, 0, 0⟩, ⟨2, 1, 0⟩, ⟨0, 0, 1⟩, ⟨0, 0, 1⟩, ⟨0, 0, 1⟩, 0⟩]

/-- The tree buildBVH produces from tsC3. -/
def treeC3 : BVHTree :=
  BVHTree.internal ⟨⟨0, 0, 0⟩, ⟨3, 1, 0⟩⟩
    (BVHTree.leaf ⟨⟨0, 0, 0⟩, ⟨1, 1, 0⟩⟩ 0)
    (BVHTree.leaf ⟨⟨2, 0, 0⟩, ⟨3, 1, 0⟩⟩ 1)

/-- A one-triangle scene for the integrator witnesses: a single leaf BVH over
the first triangle of tsC3, one material. -/
def sceneW : Shader.GPUScene :=
  { triangleBuffer := [⟨⟨0, 0, 0⟩, ⟨1, 0, 0⟩, ⟨0, 1, 0⟩, ⟨0, 0, 1⟩, ⟨0, 0, 1⟩, ⟨0, 0, 1⟩, 0⟩]
    materialBuffer := [⟨⟨1, 0, 0⟩, ⟨0, 1, 0⟩, 1/2, 1/2, ⟨0, 0, 0⟩, 0⟩]
    bvhBuffer := [⟨⟨0, 0, 0⟩, ⟨1, 1, 0⟩, 1, -1, -1, 0⟩]
    envMap := fun _ _ => Vec3.zero }

/-- A scene whose BVH buffer is the flattening of treeC3, for the traversal
termination witness. -/
def sceneC4 : Shader.GPUScene :=
  { triangleBuffer := tsC3
    materialBuffer := [⟨⟨1, 0, 0⟩, ⟨0, 1, 0⟩, 1/2, 1/2, ⟨0, 0, 0⟩, 0⟩]
    bvhBuffer := flattenBVH treeC3
    envMap := fun _ _ => Vec3.zero }

/-- A ray hitting the first triangle of sceneW head on. -/
def rayW : Shader.Ray := ⟨⟨1/4, 1/4, 1⟩, ⟨0, 0, -1⟩⟩

/-- Uniforms used by the integrator witnesses. -/
def uniformsW : Shader.Uniforms :=
  { resolution := (4, 4)
    aspect := 1
    frame := 1
    maxBounces := 4
    samplesPerFrame := 1
    camera := ⟨⟨0, 0, 0⟩, ⟨0, 0, -1⟩, 45, 1, 0⟩
    envMapIntensity := 1
    envMapRotation := 0 }

/-- The candidate list sorted as buildBVHRecursive sorts it (by box center
along the axis the code selects). -/
def sortedNodes (ns : List BVHTree) : List BVHTree :=
  stableSortBy (centerLE (chooseSplitAxis (computeBBox ns).size)) ns

/-- Integrator loop state for the C6 witness. -/
def stW : Shader.TraceState := ⟨rayW, 0, Vec3.zero, ⟨1, 1, 1⟩⟩

/-! ## Claim theorems -/

/-- C1, counterexample: building a BVH from an empty triangle list does not
produce an empty node array; buildBVHRecursive throws ("Input nodes array is
empty"), modelled as `Except.error`. -/
theorem c1_counterexample : buildBVH [] = Except.error BuildError.emptyInput := by
  with_unfolding_all decide

/-- C1 (amended): for an empty triangle list the BVH build raises an error
rather than producing an empty node array, and scene intersection against an
empty BVH buffer reports no hit for every ray (and every choice of the other
buffers and of the transcendental functions). -/
theorem c1_empty_scene_amended :
    buildBVH [] = Except.error BuildError.emptyInput ∧
    ∀ (F : RealFns) (tris : List Triangle) (mats : List Shader.Material)
      (env : ℚ → ℚ → Vec3) (ray : Shader.Ray),
      Shader.raySceneIntersect F ⟨tris, mats, [], env⟩ ray = Shader.noHit := by
  refine ⟨by with_unfolding_all decide, ?_⟩
  intro F tris mats env ray
  rfl

/-- C2, counterexample: on three candidate boxes whose common bounding box
has size (1, 2, 3) the builder sorts along axis y even though the longest
axis is z, and the resulting tree differs from the one the claimed
longest-axis procedure produces. -/
theorem c2_counterexample :
    chooseSplitAxis (computeBBox nsC2).size = Axis.y ∧
    longestAxis (computeBBox nsC2).size = Axis.z ∧
    buildBVHRecursive nsC2 ≠ buildBVHRecursiveSpecLongest nsC2 := by
  with_unfolding_all decide

/-- C2 (amended): for three or more candidates buildBVHRecursive selects the
split axis as x when sizeX exceeds both sizeY and sizeZ, as z when sizeX
exceeds sizeY but not sizeZ, and as y otherwise (even when z is longer),
sorts the candidates by box center along that axis, partitions at an index
that minimises area(leftBox)*|left| + area(rightBox)*|right| over all split
indices, and recurses on both halves; a two-element set is split directly
into two leaves without a cost search. -/
theorem c2_sah_build_amended :
    (∀ a b : BVHTree, buildBVHRecursive [a, b] =
        Except.ok (BVHTree.internal (computeBBox [a, b]) a b)) ∧
    ∀ ns : List BVHTree, 3 ≤ ns.length →
      chooseSplitAxis (computeBBox ns).size =
        (if (computeBBox ns).size.y < (computeBBox ns).size.x then
           if (computeBBox ns).size.z < (computeBBox ns).size.x then Axis.x else Axis.z
         else Axis.y) ∧
      1 ≤ minSplitIndex (sortedNodes ns) ∧
      minSplitIndex (sortedNodes ns) ≤ ns.length - 1 ∧
      (∀ j, 1 ≤ j → j ≤ ns.length - 1 →
        splitCost (sortedNodes ns) (minSplitIndex (sortedNodes ns)) ≤
          splitCost (sortedNodes ns) j) ∧
      ∃ l r : BVHTree,
        buildBVHRecursive ((sortedNodes ns).take (minSplitIndex (sortedNodes ns))) =
          Except.ok l ∧
        buildBVHRecursive ((sortedNodes ns).drop (minSplitIndex (sortedNodes ns))) =
          Except.ok r ∧
        buildBVHRecursive ns = Except.ok (BVHTree.internal (computeBBox ns) l r) := by
  constructor
  · intro a b
    rfl
  intro ns h3
  obtain ⟨n1, n2, n3, rest, rfl⟩ : ∃ n1 n2 n3 rest, ns = n1 :: n2 :: n3 :: rest := by
    match ns, h3 with
    | n1 :: n2 :: n3 :: rest, _ => exact ⟨n1, n2, n3, rest, rfl⟩
    | [], h => simp at h
    | [n1], h => simp at h
    | [n1, n2], h => simp at h
  have hslen : (sortedNodes (n1 :: n2 :: n3 :: rest)).length = rest.length + 3 := by
    unfold sortedNodes
    rw [length_stableSortBy]
    simp
  have hkb := minSplitIndex_bounds (sortedNodes (n1 :: n2 :: n3 :: rest)) (by omega)
  have hmin := minSplitIndex_min (sortedNodes (n1 :: n2 :: n3 :: rest)) (by omega)
  refine ⟨rfl, hkb.1, ?_, ?_, ?_⟩
  · simp only [List.length_cons]
    omega
  · intro j hj1 hj2
    simp only [List.length_cons] at hj2
    exact hmin j hj1 (by omega)
  · have htake_ne : (sortedNodes (n1 :: n2 :: n3 :: rest)).take
        (minSplitIndex (sortedNodes (n1 :: n2 :: n3 :: rest))) ≠ [] := by
      intro hcon
      have := congrArg List.length hcon
      simp only [List.length_take, List.length_nil] at this
      omega
    have hdrop_ne : (sortedNodes (n1 :: n2 :: n3 :: rest)).drop
        (minSplitIndex (sortedNodes (n1 :: n2 :: n3 :: rest))) ≠ [] := by
      intro hcon
      have := congrArg List.length hcon
      simp only [List.length_drop, List.length_nil] at this
      omega
    obtain ⟨l, hl⟩ := buildBVHRecursive_ok _ htake_ne
    obtain ⟨r, hr⟩ := buildBVHRecursive_ok _ hdrop_ne
    refine ⟨l, r, hl, hr, ?_⟩
    show buildBVHRecursiveGo (n1 :: n2 :: n3 :: rest).length _ = _
    have hlen : (n1 :: n2 :: n3 :: rest).length = (rest.length + 2) + 1 := by simp
    rw [hlen]
    simp only [buildBVHRecursiveGo]
    have hfold : stableSortBy (centerLE (chooseSplitAxis
        (computeBBox (n1 :: n2 :: n3 :: rest)).size)) (n1 :: n2 :: n3 :: rest) =
        sortedNodes (n1 :: n2 :: n3 :: rest) := rfl
    rw [hfold]
    rw [buildBVHRecursiveGo_eq (rest.length + 2) _
        (by simp only [List.length_take]; omega),
      buildBVHRecursiveGo_eq (rest.length + 2) _
        (by simp only [List.length_drop]; omega)]
    rw [hl, hr]

/-- C2 witness: the amended build characterisation applied to the concrete
three-leaf candidate list nsC2. -/
theorem c2_witness :
    3 ≤ nsC2.length ∧
    (chooseSplitAxis (computeBBox nsC2).size =
        (if (computeBBox nsC2).size.y < (computeBBox nsC2).size.x then
           if (computeBBox nsC2).size.z < (computeBBox nsC2).size.x then Axis.x else Axis.z
         else Axis.y) ∧
      1 ≤ minSplitIndex (sortedNodes nsC2) ∧
      minSplitIndex (sortedNodes nsC2) ≤ nsC2.length - 1 ∧
      (∀ j, 1 ≤ j → j ≤ nsC2.length - 1 →
        splitCost (sortedNodes nsC2) (minSplitIndex (sortedNodes nsC2)) ≤
          splitCost (sortedNodes nsC2) j) ∧
      ∃ l r : BVHTree,
        buildBVHRecursive ((sortedNodes nsC2).take (minSplitIndex (sortedNodes nsC2))) =
          Except.ok l ∧
        buildBVHRecursive ((sortedNodes nsC2).drop (minSplitIndex (sortedNodes nsC2))) =
          Except.ok r ∧
        buildBVHRecursive nsC2 = Except.ok (BVHTree.internal (computeBBox nsC2) l r)) :=
  ⟨by with_unfolding_all decide, c2_sah_build_amended.2 nsC2 (by with_unfolding_all decide)⟩

/-- C3: every BVH produced by buildBVH and flattened by flattenBVH is a valid
flat BVH array: every leaf entry stores exactly one triangle index with
left = right = -1, every internal entry stores triangleIndex = -1 and a
bounding box containing both children's boxes (hence their union), and the
child references cover exactly the indices 1 .. n-1 once each, so index 0 is
the unique root. -/
theorem c3_flat_bvh_valid (ts : List Triangle) (t : BVHTree)
    (h : buildBVH ts = Except.ok t) : ValidFlatBVH (flattenBVH t) :=
  flattenBVH_valid (buildBVH_ok_inv h)

/-- C3 witness: the two-triangle scene tsC3 builds treeC3 and its flattening
is valid. -/
theorem c3_witness :
    buildBVH tsC3 = Except.ok treeC3 ∧ ValidFlatBVH (flattenBVH treeC3) :=
  ⟨by with_unfolding_all decide,
   c3_flat_bvh_valid tsC3 treeC3 (by with_unfolding_all decide)⟩

/-- C4: on any well-formed flat BVH array (children in bounds and strictly
after their parent, as flattenBVH guarantees) the stack traversal terminates
within the fuel rayBVHIntersect supplies; whenever the stack has reached
MAX_STACK_SIZE at the top of the loop body, the iteration aborts and returns
the best hit discovered so far; and a continuing iteration never grows the
stack beyond MAX_STACK_SIZE, so no out-of-bounds stack access can occur. -/
theorem c4_traversal_terminates (F : RealFns) (scene : Shader.GPUScene) (ray : Shader.Ray)
    (hwf : ∀ k, k < scene.bvhBuffer.length → NodeOK scene.bvhBuffer 0 k)
    (hne : scene.bvhBuffer ≠ []) :
    (∃ h, Shader.rayBVHLoop F scene ray (Shader.defaultFuel scene)
        ⟨[0], Shader.noHit⟩ = some h) ∧
    (∀ s : Shader.TraverseState, Shader.MAX_STACK_SIZE ≤ s.stack.length →
      Shader.rayBVHStep F scene ray s = Sum.inr s.hit) ∧
    (∀ s s2 : Shader.TraverseState, Shader.rayBVHStep F scene ray s = Sum.inl s2 →
      s2.stack.length ≤ Shader.MAX_STACK_SIZE) := by
  refine ⟨?_, fun s h => Shader.rayBVHStep_aborts F scene ray s h,
          fun s s2 h => Shader.rayBVHStep_stack_bounded F scene ray s s2 h⟩
  have hlenpos : 0 < scene.bvhBuffer.length := List.length_pos.mpr hne
  apply Shader.rayBVHLoop_terminates F scene ray hwf
  · intro i hi
    rcases List.mem_singleton.mp hi with h0
    subst h0
    refine ⟨le_refl 0, ?_⟩
    simpa using hlenpos
  · show Shader.stackPotential scene.bvhBuffer.length [0] < Shader.defaultFuel scene
    simp only [Shader.stackPotential, Shader.defaultFuel, List.map_cons, List.map_nil,
      List.sum_cons, List.sum_nil, Int.toNat_zero, Nat.sub_zero, Nat.add_zero]
    omega

/-- C4 witness: the termination statement applied to the flattening of
treeC3. -/
theorem c4_witness :
    (∀ k, k < sceneC4.bvhBuffer.length → NodeOK sceneC4.bvhBuffer 0 k) ∧
    sceneC4.bvhBuffer ≠ [] ∧
    (∃ h, Shader.rayBVHLoop zeroFns sceneC4 rayW (Shader.defaultFuel sceneC4)
        ⟨[0], Shader.noHit⟩ = some h) := by
  have hv := @flattenBVH_valid treeC3 (by with_unfolding_all decide)
  exact ⟨hv.2.2, hv.1, (c4_traversal_terminates zeroFns sceneC4 rayW hv.2.2 hv.1).1⟩

/-- C5: the slab test reports a hit iff tMax >= max(0, tMin) over the
per-axis slab intervals of the non-near-parallel axes (intersected with the
code's sentinel interval [-INF, INF]), with every near-parallel axis either
rejecting the box (origin outside its slab) or being skipped. -/
theorem c5_slab_test (ray : Shader.Ray) (aabbMin aabbMax : Vec3) :
    Shader.rayAABBIntersect ray aabbMin aabbMax = true ↔
      Shader.slabSpecHit ray aabbMin aabbMax :=
  Shader.rayAABBIntersect_iff_slabSpec ray aabbMin aabbMax

/-- C6: at every surface hit, after the cosine-weighted hemisphere sample the
integrator draws one uniform random value, classifies the bounce as specular
exactly when that value is at most the material's metalness (isSpecular is 1
then and 0 otherwise), and sets the new ray direction to the linear blend
mix(diffuseDirection, specularDirection, isSpecular * (1 - roughness)) of the
hemisphere sample and the mirror reflection about the shading normal. -/
theorem c6_specular_blend (F : RealFns) (scene : Shader.GPUScene) (u : Shader.Uniforms)
    (st : Shader.TraceState)
    (hhit : (Shader.raySceneIntersect F scene st.ray).hit = true) :
    ∃ st2 : Shader.TraceState, ∃ isSpec : ℚ,
      Shader.traceStep F scene u st = Sum.inl st2 ∧
      (isSpec = 1 ↔
        (Shader.rand (Shader.randCosineWeightedHemisphere F st.seed
            (Shader.raySceneIntersect F scene st.ray).normal).1).2 ≤
          (scene.materialBuffer.getD
            (Shader.raySceneIntersect F scene st.ray).materialIndex.toNat
            Shader.defaultMaterial).metalness) ∧
      (isSpec = 1 ∨ isSpec = 0) ∧
      st2.ray.direction =
        Vec3.mix
          (Shader.randCosineWeightedHemisphere F st.seed
            (Shader.raySceneIntersect F scene st.ray).normal).2
          (Shader.reflect st.ray.direction
            (Shader.raySceneIntersect F scene st.ray).normal)
          (isSpec * (1 -
            (scene.materialBuffer.getD
              (Shader.raySceneIntersect F scene st.ray).materialIndex.toNat
              Shader.defaultMaterial).roughness)) := by
  simp only [Shader.traceStep, hhit, if_true]
  refine ⟨_, (if (Shader.rand (Shader.randCosineWeightedHemisphere F st.seed
      (Shader.raySceneIntersect F scene st.ray).normal).1).2 ≤
      (scene.materialBuffer.getD
        (Shader.raySceneIntersect F scene st.ray).materialIndex.toNat
        Shader.defaultMaterial).metalness then (1 : ℚ) else 0), rfl, ?_, ?_, rfl⟩
  · by_cases h : (Shader.rand (Shader.randCosineWeightedHemisphere F st.seed
        (Shader.raySceneIntersect F scene st.ray).normal).1).2 ≤
        (scene.materialBuffer.getD
          (Shader.raySceneIntersect F scene st.ray).materialIndex.toNat
          Shader.defaultMaterial).metalness
    · simp [h]
    · simp [h]
  · by_cases h : (Shader.rand (Shader.randCosineWeightedHemisphere F st.seed
        (Shader.raySceneIntersect F scene st.ray).normal).1).2 ≤
        (scene.materialBuffer.getD
          (Shader.raySceneIntersect F scene st.ray).materialIndex.toNat
          Shader.defaultMaterial).metalness
    · exact Or.inl (if_pos h)
    · exact Or.inr (if_neg h)

/-- C6 witness: the specular-classification statement at the concrete scene
sceneW, ray rayW (which hits the triangle) and seed 0. -/
theorem c6_witness :
    (Shader.raySceneIntersect zeroFns sceneW stW.ray).hit = true ∧
    (∃ st2 : Shader.TraceState, ∃ isSpec : ℚ,
      Shader.traceStep zeroFns sceneW uniformsW stW = Sum.inl st2 ∧
      (isSpec = 1 ↔
        (Shader.rand (Shader.randCosineWeightedHemisphere zeroFns stW.seed
            (Shader.raySceneIntersect zeroFns sceneW stW.ray).normal).1).2 ≤
          (sceneW.materialBuffer.getD
            (Shader.raySceneIntersect zeroFns sceneW stW.ray).materialIndex.toNat
            Shader.defaultMaterial).metalness) ∧
      (isSpec = 1 ∨ isSpec = 0) ∧
      st2.ray.direction =
        Vec3.mix
          (Shader.randCosineWeightedHemisphere zeroFns stW.seed
            (Shader.raySceneIntersect zeroFns sceneW stW.ray).normal).2
          (Shader.reflect stW.ray.direction
            (Shader.raySceneIntersect zeroFns sceneW stW.ray).normal)
          (isSpec * (1 -
            (sceneW.materialBuffer.getD
              (Shader.raySceneIntersect zeroFns sceneW stW.ray).materialIndex.toNat
              Shader.defaultMaterial).roughness))) :=
  ⟨by with_unfolding_all decide,
   c6_specular_blend zeroFns sceneW uniformsW stW (by with_unfolding_all decide)⟩

/-- C7, counterexample: the accumulate shader does not always merge with
weight 1/frameCounter; when the accumulation toggle is off (enabled == 0) the
weight is forced to 1, so at frame 2 the merged color equals the current
sample instead of the claimed lerp. -/
theorem c7_counterexample :
    accumulatePixel ⟨(4, 4), 2, 0⟩ ⟨1, 1, 1⟩ ⟨0, 0, 0⟩ ≠
      Vec3.mix ⟨0, 0, 0⟩ ⟨1, 1, 1⟩ (1 / (2 : ℚ)) := by
  with_unfolding_all decide

/-- C7 (amended): on each frame eligible for sampling (status `sampling` and
frameCounter <= sampleBudget) the render tick samples and increments the
frame counter exactly once, the increment lands before the passes run, so
the frame value in effect for the merge is the incremented one, and the
accumulate pass computes newImage = lerp(previousImage, currentSampleImage,
1/frameCounter) with that counter whenever the accumulation toggle is on;
with the toggle off the weight is forced to 1. -/
theorem c7_accumulate_amended (s : RendererState) (res : Nat × Nat) (en : Nat)
    (color prev : Vec3)
    (helig : s.status = RStatus.sampling ∧ s.frame ≤ s.frames) :
    (renderTick s).sampled = true ∧
    (renderTick s).state.frame = s.frame + 1 ∧
    (renderTick s).passFrame = s.frame + 1 ∧
    (en ≠ 0 →
      accumulatePixel (accumUniformsOfTick (renderTick s) res en) color prev =
        Vec3.mix prev color (1 / ((s.frame + 1 : Nat) : ℚ))) ∧
    (en = 0 →
      accumulatePixel (accumUniformsOfTick (renderTick s) res en) color prev =
        Vec3.mix prev color 1) := by
  have hset : ∀ v : Nat, (setFrame s v).frame = v := by
    intro v
    unfold setFrame
    split <;> rfl
  have htick : renderTick s =
      { state := setFrame s (s.frame + 1), sampled := true,
        passFrame := (setFrame s (s.frame + 1)).frame } := by
    unfold renderTick
    rw [if_pos helig]
  rw [htick]
  refine ⟨rfl, hset _, hset _, ?_, ?_⟩
  · intro hen
    simp only [accumulatePixel, accumUniformsOfTick, hset, if_neg hen]
  · intro hen
    simp only [accumulatePixel, accumUniformsOfTick, hset, if_pos hen]

/-- C7 witness: the amended accumulation statement at the concrete state
frame 1 of budget 3, enabled toggle on. -/
theorem c7_witness :
    ((⟨1, 3, RStatus.sampling⟩ : RendererState).status = RStatus.sampling ∧
      (⟨1, 3, RStatus.sampling⟩ : RendererState).frame ≤
        (⟨1, 3, RStatus.sampling⟩ : RendererState).frames) ∧
    ((renderTick ⟨1, 3, RStatus.sampling⟩).sampled = true ∧
     (renderTick ⟨1, 3, RStatus.sampling⟩).state.frame = 1 + 1 ∧
     (renderTick ⟨1, 3, RStatus.sampling⟩).passFrame = 1 + 1 ∧
     ((1 : Nat) ≠ 0 →
       accumulatePixel
           (accumUniformsOfTick (renderTick ⟨1, 3, RStatus.sampling⟩) (4, 4) 1)
           ⟨1, 0, 0⟩ ⟨0, 0, 0⟩ =
         Vec3.mix ⟨0, 0, 0⟩ ⟨1, 0, 0⟩ (1 / ((1 + 1 : Nat) : ℚ))) ∧
     ((1 : Nat) = 0 →
       accumulatePixel
           (accumUniformsOfTick (renderTick ⟨1, 3, RStatus.sampling⟩) (4, 4) 1)
           ⟨1, 0, 0⟩ ⟨0, 0, 0⟩ =
         Vec3.mix ⟨0, 0, 0⟩ ⟨1, 0, 0⟩ 1)) :=
  ⟨⟨rfl, by decide⟩,
   c7_accumulate_amended ⟨1, 3, RStatus.sampling⟩ (4, 4) 1 ⟨1, 0, 0⟩ ⟨0, 0, 0⟩
     ⟨rfl, by decide⟩⟩

/-- C8: rendererReset always sets the frame counter to 1; the resulting
status is `sampling` when the status before the call was `idle` or
`sampling`, and `paused` when it was `paused`. -/
theorem c8_reset_behavior (s : RendererState) :
    (rendererReset s).frame = 1 ∧
    ((s.status = RStatus.idle ∨ s.status = RStatus.sampling) →
      (rendererReset s).status = RStatus.sampling) ∧
    (s.status = RStatus.paused → (rendererReset s).status = RStatus.paused) := by
  refine ⟨rfl, ?_, ?_⟩
  · rintro (h | h) <;> simp [rendererReset, h]
  · intro h
    simp [rendererReset, h]

/-- C8 witness: reset from an `idle` state at frame 5 of budget 10 returns
frame 1 with status `sampling`. -/
theorem c8_witness :
    ((⟨5, 10, RStatus.idle⟩ : RendererState).status = RStatus.idle ∨
      (⟨5, 10, RStatus.idle⟩ : RendererState).status = RStatus.sampling) ∧
    (rendererReset ⟨5, 10, RStatus.idle⟩).frame = 1 ∧
    (rendererReset ⟨5, 10, RStatus.idle⟩).status = RStatus.sampling := by
  have h := c8_reset_behavior ⟨5, 10, RStatus.idle⟩
  exact ⟨Or.inl rfl, h.1, h.2.1 (Or.inl rfl)⟩

/-- C9: the per-pixel PRNG seed is pixelIndex + frame * 719393 + SEED with
u32 wraparound, each rand draw is a pure function of the state, and two
evaluations of the per-pixel shader body with identical uniforms, scene
buffers and pixel coordinates produce identical sample colors. -/
theorem c9_prng_determinism (F : RealFns)
    (scene1 scene2 : Shader.GPUScene) (u1 u2 : Shader.Uniforms)
    (gx1 gy1 gx2 gy2 : Nat)
    (hscene : scene1 = scene2) (hu : u1 = u2) (hx : gx1 = gx2) (hy : gy1 = gy2) :
    (∀ index frame : Nat,
      Shader.initialSeed index frame =
        (index + frame * 719393 + Shader.SEED) % 2 ^ 32) ∧
    (∀ s1 s2 : Nat, s1 = s2 → Shader.rand s1 = Shader.rand s2) ∧
    Shader.renderPixel F scene1 u1 gx1 gy1 = Shader.renderPixel F scene2 u2 gx2 gy2 := by
  subst hscene hu hx hy
  refine ⟨fun index frame => ?_, fun s1 s2 h => by rw [h], rfl⟩
  show (index + frame * 719393 + Shader.SEED) % Shader.U32MOD = _
  norm_num [Shader.U32MOD]

/-- C9 witness: the determinism statement at the concrete scene sceneW,
uniforms uniformsW and pixel (0, 0). -/
theorem c9_witness :
    sceneW = sceneW ∧ uniformsW = uniformsW ∧ (0 : Nat) = 0 ∧
    ((∀ index frame : Nat,
      Shader.initialSeed index frame =
        (index + frame * 719393 + Shader.SEED) % 2 ^ 32) ∧
    (∀ s1 s2 : Nat, s1 = s2 → Shader.rand s1 = Shader.rand s2) ∧
    Shader.renderPixel zeroFns sceneW uniformsW 0 0 =
      Shader.renderPixel zeroFns sceneW uniformsW 0 0) :=
  ⟨rfl, rfl, rfl,
   c9_prng_determinism zeroFns sceneW sceneW uniformsW uniformsW 0 0 0 0 rfl rfl rfl rfl⟩

/-- C10: with a non-positive maxBounces (the UI minimum is 0) the bounce loop
runs zero iterations, so trace returns zero radiance (and the untouched seed)
for every ray, seed, scene and environment map: the environment term is only
evaluated inside the loop, and a zero-bounce configuration renders black. -/
theorem c10_zero_bounces (F : RealFns) (scene : Shader.GPUScene) (u : Shader.Uniforms)
    (seed : Nat) (ray : Shader.Ray) (mb : Int) (h : mb ≤ 0) :
    Shader.trace F scene u seed ray mb = (Vec3.zero, seed) := by
  unfold Shader.trace
  rw [Int.toNat_eq_zero.mpr h]
  rfl

/-- C10 witness: trace with maxBounces = 0 on the concrete scene sceneW and
ray rayW (which does hit geometry) returns black. -/
theorem c10_witness :
    (0 : Int) ≤ 0 ∧
    Shader.trace zeroFns sceneW uniformsW 0 rayW 0 = (Vec3.zero, 0) :=
  ⟨le_refl 0, c10_zero_bounces zeroFns sceneW uniformsW 0 rayW 0 (le_refl 0)⟩
